import Mathlib

/-!
Shallow embedding of cascadb `src/serialize/layout.cpp` (the block layout /
storage engine of a persistent tree database) and proofs about its claims.

Conventions of the embedding:
* machine integers are `Nat`; fields that the source serializes with a fixed
  width are reduced modulo `2^width` at (de)serialization time;
* the data file is a function `Nat → Nat` (byte at offset) plus a cached
  length `length_`, exactly mirroring `aio_file_` plus `Layout::length_`;
* fallible I/O is modelled by explicit `Bool` success flags supplied by the
  environment at each call site (`AIOStatus.succ` of the corresponding call);
* C `assert`s are preconditions: the model is the code's behaviour on inputs
  where the assertions hold;
* the snappy codec is an external collaborator (out of scope per the spec),
  modelled as an abstract pair of functions `Codec`;
* `std::map` containers are modelled as key-sorted association lists, and
  `std::list<Hole>` as a `List Hole`.

Constants: `PAGE_SIZE`, `SUPER_BLOCK_SIZE` come from headers not in the
source tree; their values (4096) are the spec's (§8).  `BLOCK_META_SIZE` is
18 (spec §6: `offset:8 | inflated_size:4 | compressed_size:4 | crc:2`).
-/

def PAGE_SIZE : Nat := 4096

def SUPER_BLOCK_SIZE : Nat := 4096

def BLOCK_META_SIZE : Nat := 18

/-- Modelled from the spec: `PAGE_ROUND_UP(x)` is the smallest multiple of
`PAGE_SIZE` that is `≥ x` (macro from `util/bits.h`, not under `src/`). -/
def PAGE_ROUND_UP (x : Nat) : Nat := ((x + PAGE_SIZE - 1) / PAGE_SIZE) * PAGE_SIZE

/-- Compression option (`Compress` enum): `kNoCompress` or `kSnappyCompress`. -/
inductive Compress where
  | kNoCompress
  | kSnappyCompress
deriving DecidableEq

/-- Numeric tag stored in the superblock's one-byte `compress` field
(spec §6: 0 = None, 1 = Snappy). -/
def compressTag : Compress → Nat
  | .kNoCompress => 0
  | .kSnappyCompress => 1

/-- Abstract snappy codec (external collaborator, out of scope per spec §1).
`comp` is `snappy::RawCompress` on the first `input_size` bytes; `decomp`
is `snappy::RawUncompress` given the expected inflated size, `none` on
failure. -/
structure Codec where
  comp : List Nat → List Nat
  decomp : List Nat → Nat → Option (List Nat)

/-- `BlockMeta { offset, inflated_size, compressed_size, crc }` (layout.h via
spec §3).  Fields are kept as `Nat`; fixed widths are applied when the meta
is serialized. -/
structure BlockMeta where
  offset : Nat
  inflated_size : Nat
  compressed_size : Nat
  crc : Nat
deriving DecidableEq

/-- A free extent `Hole { offset, size }` of the hole list. -/
structure Hole where
  offset : Nat
  size : Nat
deriving DecidableEq

/-- An in-memory `Block`: a page-aligned buffer (`data`, the full buffer
contents up to its limit) and the logical `size ≤ data.length`. -/
structure Block where
  data : List Nat
  size : Nat
deriving DecidableEq

/-- Byte-addressed file contents: `writeBytes f off l` writes the bytes of
`l` at offset `off` (models `AIOFile` writes). -/
def writeBytes (f : Nat → Nat) (off : Nat) (l : List Nat) : Nat → Nat :=
  fun i => if off ≤ i ∧ i < off + l.length then l.getD (i - off) 0 else f i

/-- Read `n` bytes at offset `off` (models `AIOFile` reads into a buffer of
size `n`). -/
def readBytes (f : Nat → Nat) (off n : Nat) : List Nat :=
  (List.range n).map (fun i => f (off + i))

/-- Pad (or cut) a byte list to exactly `n` bytes; models a `Slice` over an
aligned buffer of capacity `n` whose prefix holds the meaningful data (the
allocator's spare bytes are modelled as zeros). -/
def padTo (n : Nat) (l : List Nat) : List Nat :=
  l.take n ++ List.replicate (n - l.length) 0

/-- Key-sorted association list lookup: `std::map::find`. -/
def lookupA (l : List (Nat × BlockMeta)) (k : Nat) : Option BlockMeta :=
  match l with
  | [] => none
  | (k2, v) :: tl => if k = k2 then some v else lookupA tl k

/-- Key-sorted association list insert-or-assign: `std::map::operator[]`. -/
def insertA (l : List (Nat × BlockMeta)) (k : Nat) (v : BlockMeta) : List (Nat × BlockMeta) :=
  match l with
  | [] => [(k, v)]
  | (k2, v2) :: tl =>
    if k < k2 then (k, v) :: (k2, v2) :: tl
    else if k = k2 then (k, v) :: tl
    else (k2, v2) :: insertA tl k v

/-- Key-sorted association list erase: `std::map::erase`. -/
def eraseA (l : List (Nat × BlockMeta)) (k : Nat) : List (Nat × BlockMeta) :=
  match l with
  | [] => []
  | (k2, v2) :: tl => if k = k2 then tl else (k2, v2) :: eraseA tl k

/-- The whole mutable state of a `Layout` object together with its file:
`aio_file_` contents, `length_`, `offset_` (file end offset), the two index
views `block_index_` / `block_offset_index_`, the superblock record
(`superblock_` fields, `index_meta` being `index_block_meta`), and
`hole_list_`. -/
structure LayoutState where
  file : Nat → Nat
  length_ : Nat
  offset_ : Nat
  block_index : List (Nat × BlockMeta)
  block_offset_index : List (Nat × BlockMeta)
  index_meta : Option BlockMeta
  hole_list : List Hole
  sb_magic : Nat
  sb_major : Nat
  sb_minor : Nat
  sb_compress : Compress
  sb_crc : Nat

/-- Merge a hole `g` with its successor when they touch: the final
`if (prev->offset + prev->size == next->offset)` step of `Layout::add_hole`. -/
def attachNext (g : Hole) (tl : List Hole) : List Hole :=
  match tl with
  | [] => [g]
  | nx :: tl2 =>
    if g.offset + g.size = nx.offset then ⟨g.offset, g.size + nx.size⟩ :: tl2
    else g :: nx :: tl2

/-- Insert hole `h` just after its predecessor `hd` (the last hole with
offset below `h.offset`), merging with `hd` when contiguous and then with
the successor: the `else` branch of `Layout::add_hole` after the binary
search located `prev = hd`. -/
def mergeAfter (hd : Hole) (tl : List Hole) (h : Hole) : List Hole :=
  if hd.offset + hd.size = h.offset then attachNext ⟨hd.offset, hd.size + h.size⟩ tl
  else hd :: attachNext h tl

/-- List part of `Layout::add_hole`: the C++ binary search (a verbatim
`std::lower_bound` loop over the offset-sorted list, tracking `prev` = the
last hole whose offset is `< hole.offset`) followed by the front-insert /
merge-with-prev / plain-insert cases.  On the sorted lists the code runs on,
this structural recursion reaches exactly the same `prev` and executes the
same case. -/
def addHoleList : List Hole → Hole → List Hole
  | [], h => [h]
  | hd :: tl, h =>
    if h.offset < hd.offset then
      -- `prev == begin && prev->offset > hole.offset`: push front or merge
      if h.offset + h.size = hd.offset then ⟨h.offset, hd.size + h.size⟩ :: tl
      else h :: hd :: tl
    else
      match tl with
      | [] => mergeAfter hd [] h
      | nx :: tl2 =>
        if nx.offset < h.offset then hd :: addHoleList (nx :: tl2) h
        else mergeAfter hd (nx :: tl2) h

/-- `Layout::add_hole(offset, size)`: tail absorption (shrink `offset_`)
when the hole ends at the file end, otherwise insert into the hole list. -/
def add_hole (st : LayoutState) (off sz : Nat) : LayoutState :=
  if off + sz = st.offset_ then { st with offset_ := off }
  else { st with hole_list := addHoleList st.hole_list ⟨off, sz⟩ }

/-- List part of `Layout::get_hole(size, offset)`: first-fit scan; a larger
hole is shrunk from the front, an exact hole is removed. -/
def getHoleList : List Hole → Nat → Option (Nat × List Hole)
  | [], _ => none
  | hd :: tl, sz =>
    if sz < hd.size then some (hd.offset, ⟨hd.offset + sz, hd.size - sz⟩ :: tl)
    else if hd.size = sz then some (hd.offset, tl)
    else (getHoleList tl sz).map (fun p => (p.1, hd :: p.2))

/-- `Layout::get_offset(size)`: take a hole if one fits, otherwise extend
the file end (growing the cached length when passed). -/
def get_offset (st : LayoutState) (sz : Nat) : Nat × LayoutState :=
  match getHoleList st.hole_list sz with
  | some (off, l2) => (off, { st with hole_list := l2 })
  | none =>
    let noff := st.offset_ + sz
    (st.offset_,
      { st with offset_ := noff, length_ := if noff > st.length_ then noff else st.length_ })

/-- `Layout::get_block_meta(bid, meta)`: value copy out of `block_index_`. -/
def get_block_meta (st : LayoutState) (bid : Nat) : Option BlockMeta :=
  lookupA st.block_index bid

/-- `Layout::set_block_meta(bid, meta)`: install `meta` in both views; when
an entry existed, the old extent is afterwards released with `add_hole`. -/
def set_block_meta (st : LayoutState) (bid : Nat) (m : BlockMeta) : LayoutState :=
  match lookupA st.block_index bid with
  | none =>
    { st with block_index := insertA st.block_index bid m,
              block_offset_index := insertA st.block_offset_index m.offset m }
  | some old =>
    let st2 := { st with
      block_index := insertA st.block_index bid m,
      block_offset_index := insertA (eraseA st.block_offset_index old.offset) m.offset m }
    add_hole st2 old.offset (PAGE_ROUND_UP old.compressed_size)

/-- `Layout::del_block_meta(bid)`: erase from both views, then release the
extent with `add_hole`. -/
def del_block_meta (st : LayoutState) (bid : Nat) : LayoutState :=
  match lookupA st.block_index bid with
  | none => st
  | some old =>
    let st2 := { st with block_index := eraseA st.block_index bid,
                         block_offset_index := eraseA st.block_offset_index old.offset }
    add_hole st2 old.offset (PAGE_ROUND_UP old.compressed_size)

/-- `Layout::delete_block(bid)`: a failed `get_block_meta` only logs and
returns; otherwise delegate to `del_block_meta`. -/
def delete_block (st : LayoutState) (bid : Nat) : LayoutState :=
  match lookupA st.block_index bid with
  | none => st
  | some _ => del_block_meta st bid

/-- `Layout::compress_data(input, input_size)` returns the output buffer and
the output size: pass-through for `kNoCompress` (the buffer aliases the
input), `snappy::RawCompress` over the first `input_size` bytes otherwise. -/
def compress_data (mode : Compress) (codec : Codec) (input : List Nat) (input_size : Nat) :
    List Nat × Nat :=
  match mode with
  | .kNoCompress => (input, input_size)
  | .kSnappyCompress =>
    let out := codec.comp (input.take input_size)
    (out, out.length)

/-- `Layout::uncompress_data(input, input_size, output, output_size)`:
pass-through for `kNoCompress` (asserts `input_size == output_size`, a
precondition), `snappy::RawUncompress` of the first `input_size` bytes
otherwise (`none` models its failure). -/
def uncompress_data (mode : Compress) (codec : Codec) (input : List Nat)
    (input_size output_size : Nat) : Option (List Nat) :=
  match mode with
  | .kNoCompress => some input
  | .kSnappyCompress => codec.decomp (input.take input_size) output_size

/-- Modelled from the spec: the fixed-width integer writer of the
serialization primitives (`util/serialize.h`, not under `src/`); spec §6
prescribes consistent fixed-width little-endian integers. -/
def encodeLE : Nat → Nat → List Nat
  | 0, _ => []
  | w + 1, v => (v % 256) :: encodeLE w (v / 256)

/-- Modelled from the spec: the fixed-width integer reader (consuming `w`
bytes from the front, failing when the buffer is exhausted — the
`BlockReader` bound); the writer/reader pair is symmetric per spec §6. -/
def decodeLE : Nat → List Nat → Option (Nat × List Nat)
  | 0, l => some (0, l)
  | _ + 1, [] => none
  | w + 1, b :: l => (decodeLE w l).map (fun p => (b + 256 * p.1, p.2))

/-- Wire format of a `BlockMeta` as emitted by `Layout::write_block_meta`:
`offset:8 | inflated_size:4 | compressed_size:4 | crc:2`. -/
def writeBlockMetaBytes (m : BlockMeta) : List Nat :=
  encodeLE 8 m.offset ++ encodeLE 4 m.inflated_size ++
  encodeLE 4 m.compressed_size ++ encodeLE 2 m.crc

/-- `Layout::read_block_meta`: decode the four fields in order. -/
def readBlockMetaBytes (l : List Nat) : Option (BlockMeta × List Nat) :=
  match decodeLE 8 l with
  | none => none
  | some (off, l1) =>
    match decodeLE 4 l1 with
    | none => none
    | some (isz, l2) =>
      match decodeLE 4 l2 with
      | none => none
      | some (csz, l3) =>
        match decodeLE 2 l3 with
        | none => none
        | some (crc, l4) => some (⟨off, isz, csz, crc⟩, l4)

/-- Superblock record bytes as emitted by `Layout::write_superblock`:
magic, major, minor, compress tag, `has_index` bool byte, the index meta
when present, crc. -/
def writeSuperBytes (st : LayoutState) : List Nat :=
  encodeLE 8 st.sb_magic ++ encodeLE 1 st.sb_major ++ encodeLE 1 st.sb_minor ++
  encodeLE 1 (compressTag st.sb_compress) ++
  (match st.index_meta with
   | some m => 1 :: writeBlockMetaBytes m
   | none => [0]) ++
  encodeLE 2 st.sb_crc

/-- Result of a structurally successful `Layout::read_superblock` parse. -/
structure SBParsed where
  magic : Nat
  major : Nat
  minor : Nat
  ctag : Nat
  index_meta : Option BlockMeta
  crc : Nat
deriving DecidableEq

/-- `Layout::read_superblock`: decode magic, versions, compress tag, the
`has_index` bool (one byte, nonzero = true per the serializer), the index
meta when flagged, and the crc; `none` when any read runs out of buffer. -/
def parseSuper (l : List Nat) : Option SBParsed :=
  match decodeLE 8 l with
  | none => none
  | some (magic, l1) =>
    match decodeLE 1 l1 with
    | none => none
    | some (majr, l2) =>
      match decodeLE 1 l2 with
      | none => none
      | some (minr, l3) =>
        match decodeLE 1 l3 with
        | none => none
        | some (ctag, l4) =>
          match l4 with
          | [] => none
          | hb :: l5 =>
            if hb ≠ 0 then
              match readBlockMetaBytes l5 with
              | none => none
              | some (m, l6) =>
                match decodeLE 2 l6 with
                | none => none
                | some (crc, _) => some ⟨magic, majr, minr, ctag, some m, crc⟩
            else
              match decodeLE 2 l5 with
              | none => none
              | some (crc, _) => some ⟨magic, majr, minr, ctag, none, crc⟩

/-- Entry section of the index block payload as emitted by
`Layout::write_index`: for each map entry `bid:8 | BlockMeta`. -/
def writeEntries : List (Nat × BlockMeta) → List Nat
  | [] => []
  | (bid, m) :: tl => encodeLE 8 bid ++ writeBlockMetaBytes m ++ writeEntries tl

/-- Full index block payload: `count:4` followed by the entries. -/
def writeIndexBytes (l : List (Nat × BlockMeta)) : List Nat :=
  encodeLE 4 l.length ++ writeEntries l

/-- Entry loop of `Layout::read_index`: read `n` entries of
`bid:8 | BlockMeta`, failing when the buffer runs out. -/
def parseEntries : Nat → List Nat → Option (List (Nat × BlockMeta) × List Nat)
  | 0, l => some ([], l)
  | n + 1, l =>
    match decodeLE 8 l with
    | none => none
    | some (bid, l1) =>
      match readBlockMetaBytes l1 with
      | none => none
      | some (m, l2) =>
        match parseEntries n l2 with
        | none => none
        | some (rest, l3) => some ((bid, m) :: rest, l3)

/-- `Layout::read_index`: read the count then the entries (into the empty
`block_index_`, thus producing exactly the parsed association list, which is
key-sorted because `write_index` emitted it in map order). -/
def parseIndex (l : List Nat) : Option (List (Nat × BlockMeta)) :=
  match decodeLE 4 l with
  | none => none
  | some (n, l1) =>
    match parseEntries n l1 with
    | none => none
    | some (entries, _) => some entries

/-- `Layout::get_index_size()`: `4 + N * (8 + BLOCK_META_SIZE)`. -/
def get_index_size (st : LayoutState) : Nat :=
  4 + st.block_index.length * (8 + BLOCK_META_SIZE)

/-- `Layout::read_block(meta, block)` with the read's `AIOStatus` supplied
as `r`: allocate a buffer of `PAGE_ROUND_UP(compressed_size)` bytes, read it
at `meta.offset`, uncompress (its failure is `assert(false)` in the source,
modelled as `none`), and wrap the inflated buffer in a `Block` of size
`inflated_size`. -/
def read_block (mode : Compress) (codec : Codec) (st : LayoutState) (m : BlockMeta)
    (r : Bool) : Option Block :=
  if r then
    match uncompress_data mode codec
        (readBytes st.file m.offset (PAGE_ROUND_UP m.compressed_size))
        m.compressed_size m.inflated_size with
    | some inflated => some ⟨inflated, m.inflated_size⟩
    | none => none
  else none

/-- `Layout::read(bid)`: look the meta up and read the block; `none` when
the bid is absent or the read fails. -/
def readOp (mode : Compress) (codec : Codec) (st : LayoutState) (bid : Nat)
    (r : Bool) : Option Block :=
  match lookupA st.block_index bid with
  | none => none
  | some m => read_block mode codec st m r

/-- `Layout::async_write(bid, block, cb)` together with its completion
handler `Layout::handle_async_write`, run to completion with I/O status
`succ`: compress, round the output buffer up to a page, reserve space via
`get_offset`, then on success write the buffer and install the meta via
`set_block_meta`; on failure release the reserved extent via `add_hole`.
The returned list holds the argument of each `cb->exec` call, in order. -/
def async_write (mode : Compress) (codec : Codec) (st : LayoutState) (bid : Nat)
    (blk : Block) (succ : Bool) : LayoutState × List Bool :=
  let cd := compress_data mode codec blk.data blk.size
  let rsize := PAGE_ROUND_UP cd.2
  let os := get_offset st rsize
  if succ then
    let st2 := { os.2 with file := writeBytes os.2.file os.1 (padTo rsize cd.1) }
    (set_block_meta st2 bid ⟨os.1, blk.size, cd.2, 0⟩, [true])
  else
    (add_hole os.2 os.1 (PAGE_ROUND_UP cd.2), [false])

/-- `Layout::flush_superblock()` with the two `write_data` statuses `w1`,
`w2`: serialize the record into a fresh `SUPER_BLOCK_SIZE` aligned buffer
and double-write it at offsets 0 and `SUPER_BLOCK_SIZE`, failing fast. -/
def flush_superblock (st : LayoutState) (w1 w2 : Bool) : LayoutState × Bool :=
  let buf := padTo SUPER_BLOCK_SIZE (writeSuperBytes st)
  if w1 then
    let st2 := { st with file := writeBytes st.file 0 buf }
    if w2 then ({ st2 with file := writeBytes st2.file SUPER_BLOCK_SIZE buf }, true)
    else (st2, false)
  else (st, false)

/-- `Layout::flush_index()` with the index block `write_data` status `w`:
serialize the index, compress, reserve `PAGE_ROUND_UP(compressed_size)`
bytes via `get_offset`, write.  On write failure the source calls
`add_hole(offset, PAGE_ROUND_UP(size))` with the INFLATED size — that line
is transcribed verbatim here.  On success, release the previous index
extent (if any), fix up `block_offset_index_` and store the new meta (a
fresh `BlockMeta` has zeroed fields). -/
def flush_index (mode : Compress) (codec : Codec) (st : LayoutState) (w : Bool) :
    LayoutState × Bool :=
  let size := get_index_size st
  let payload := writeIndexBytes st.block_index
  let cd := compress_data mode codec payload size
  let rsize := PAGE_ROUND_UP cd.2
  let os := get_offset st rsize
  if w then
    let st2 := { os.2 with file := writeBytes os.2.file os.1 (padTo rsize cd.1) }
    match st2.index_meta with
    | some old =>
      let st3 := add_hole st2 old.offset (PAGE_ROUND_UP old.compressed_size)
      let newm : BlockMeta := ⟨os.1, size, cd.2, old.crc⟩
      ({ st3 with
          block_offset_index := insertA (eraseA st3.block_offset_index old.offset) os.1 newm,
          index_meta := some newm }, true)
    | none =>
      let newm : BlockMeta := ⟨os.1, size, cd.2, 0⟩
      ({ st2 with
          block_offset_index := insertA (eraseA st2.block_offset_index 0) os.1 newm,
          index_meta := some newm }, true)
  else
    (add_hole os.2 os.1 (PAGE_ROUND_UP size), false)

/-- `Layout::truncate()`: when `offset_ < length_`, truncate the file to
`offset_` and update the cached length. -/
def truncateOp (st : LayoutState) : LayoutState :=
  if st.offset_ < st.length_ then { st with length_ := st.offset_ } else st

/-- `Layout::flush_meta()`: `flush_index` then `flush_superblock`, failing
fast. -/
def flush_meta (mode : Compress) (codec : Codec) (st : LayoutState)
    (wIdx w1 w2 : Bool) : LayoutState × Bool :=
  let r := flush_index mode codec st wIdx
  if r.2 then flush_superblock r.1 w1 w2 else (r.1, false)

/-- `Layout::flush()`: (after draining in-flight writes — operations are
atomic in this embedding) `flush_meta`, then `truncate` on success. -/
def flushOp (mode : Compress) (codec : Codec) (st : LayoutState)
    (wIdx w1 w2 : Bool) : LayoutState × Bool :=
  let r := flush_meta mode codec st wIdx w1 w2
  if r.2 then (truncateOp r.1, true) else (r.1, false)

/-- Second-superblock fallback `Layout::load_2nd_superblock()` with the
read status `r2`. -/
def load2ndSuper (st : LayoutState) (r2 : Bool) : Option SBParsed :=
  if r2 then parseSuper (readBytes st.file SUPER_BLOCK_SIZE SUPER_BLOCK_SIZE) else none

/-- `Layout::load_superblock()` with the two read statuses: read the copy at
offset 0; on read failure or parse failure fall back to the copy at
`SUPER_BLOCK_SIZE`. -/
def load_superblock (st : LayoutState) (r1 r2 : Bool) : Option SBParsed :=
  if r1 then
    match parseSuper (readBytes st.file 0 SUPER_BLOCK_SIZE) with
    | some p => some p
    | none => load2ndSuper st r2
  else load2ndSuper st r2

/-- `Layout::load_index()` with the index block read status: read the block
described by the superblock's index meta and parse it; the `BlockReader` is
bounded by the block's size. -/
def load_index (mode : Compress) (codec : Codec) (st : LayoutState) (m : BlockMeta)
    (r : Bool) : Option (List (Nat × BlockMeta)) :=
  match read_block mode codec st m r with
  | none => none
  | some blk => parseIndex (blk.data.take blk.size)

/-- `Layout::init_block_offset_index()`: populate `block_offset_index_`
from every `block_index_` entry, plus the index block meta when present. -/
def init_block_offset_index (st : LayoutState) : LayoutState :=
  let l1 := st.block_index.foldl (fun acc p => insertA acc p.2.offset p.2) st.block_offset_index
  match st.index_meta with
  | some m => { st with block_offset_index := insertA l1 m.offset m }
  | none => { st with block_offset_index := l1 }

/-- Gap scan of `Layout::init_holes()`: walking `block_offset_index_` in
offset order, emit `(last, offset - last)` for every gap, starting from
`2 * SUPER_BLOCK_SIZE`. -/
def holeGaps : Nat → List (Nat × BlockMeta) → List (Nat × Nat)
  | _, [] => []
  | last, (off, m) :: tl =>
    (if last < off then [(last, off - last)] else []) ++
    holeGaps (off + PAGE_ROUND_UP m.compressed_size) tl

/-- `Layout::init_holes()`: `add_hole` every gap between adjacent extents,
then set `offset_` to the end of the last extent (or `2 * SUPER_BLOCK_SIZE`
when there is none). -/
def init_holes (st : LayoutState) : LayoutState :=
  let st1 := (holeGaps (2 * SUPER_BLOCK_SIZE) st.block_offset_index).foldl
      (fun acc g => add_hole acc g.1 g.2) st
  match st.block_offset_index.getLast? with
  | some p => { st1 with offset_ := p.2.offset + PAGE_ROUND_UP p.2.compressed_size }
  | none => { st1 with offset_ := 2 * SUPER_BLOCK_SIZE }

/-- Environment statuses of the fallible I/O performed by `Layout::init`:
the two superblock reads, the index block read, and the two superblock
writes of the `create` path. -/
structure InitEnv where
  r1 : Bool
  r2 : Bool
  rIdx : Bool
  w1 : Bool
  w2 : Bool
deriving DecidableEq

/-- All-success environment. -/
def allOk : InitEnv := ⟨true, true, true, true, true⟩

/-- Fresh-constructed `Layout` over a file: the constructor sets `offset_`
to 0 and allocates an empty `SuperBlock` (default record values are taken
as zero; `read_superblock` never validates them and the `create` path
overwrites `compress` and `index_block_meta`). -/
def freshLayout (mode : Compress) (f0 : Nat → Nat) (len0 : Nat) : LayoutState :=
  { file := f0, length_ := len0, offset_ := 0,
    block_index := [], block_offset_index := [], index_meta := none,
    hole_list := [], sb_magic := 0, sb_major := 0, sb_minor := 0,
    sb_compress := mode, sb_crc := 0 }

/-- `Layout::init(create)`: on `create`, write the fresh superblock twice
and set `offset_ = length_ = 2 * SUPER_BLOCK_SIZE`; otherwise reject short
files, load the superblock (with fallback), reject a compression mismatch,
load the index when present, rebuild `block_offset_index_` and the hole
list, set `offset_`; finally `truncate`.  `none` models a `false` return. -/
def initLayout (mode : Compress) (codec : Codec) (f0 : Nat → Nat) (len0 : Nat)
    (create : Bool) (env : InitEnv) : Option LayoutState :=
  let st0 := freshLayout mode f0 len0
  if create then
    let r := flush_superblock st0 env.w1 env.w2
    if r.2 then
      some (truncateOp { r.1 with offset_ := 2 * SUPER_BLOCK_SIZE,
                                  length_ := 2 * SUPER_BLOCK_SIZE })
    else none
  else
    if len0 < 2 * SUPER_BLOCK_SIZE then none
    else
      match load_superblock st0 env.r1 env.r2 with
      | none => none
      | some p =>
        if compressTag mode ≠ p.ctag then none
        else
          let st1 := { st0 with sb_magic := p.magic, sb_major := p.major,
                                sb_minor := p.minor, sb_crc := p.crc,
                                index_meta := p.index_meta }
          match p.index_meta with
          | some im =>
            match load_index mode codec st1 im env.rIdx with
            | none => none
            | some entries =>
              some (truncateOp (init_holes (init_block_offset_index
                { st1 with block_index := entries })))
          | none =>
            some (truncateOp (init_holes (init_block_offset_index st1)))

/-- One completed public operation, with the environment's choice of each
underlying I/O status: a completed `async_write`, a `delete_block`, or a
`flush`. -/
inductive LOp where
  | wr (bid : Nat) (blk : Block) (succ : Bool)
  | del (bid : Nat)
  | fl (wIdx w1 w2 : Bool)

/-- Apply one completed public operation to the state. -/
def applyOp (mode : Compress) (codec : Codec) (st : LayoutState) : LOp → LayoutState
  | .wr bid blk succ => (async_write mode codec st bid blk succ).1
  | .del bid => delete_block st bid
  | .fl wIdx w1 w2 => (flushOp mode codec st wIdx w1 w2).1

/-- Run a sequence of completed public operations. -/
def runOps (mode : Compress) (codec : Codec) (st : LayoutState) (ops : List LOp) :
    LayoutState :=
  ops.foldl (applyOp mode codec) st

/-- Sum of the on-disk footprints of all live extents: `PAGE_ROUND_UP` of
each live meta's `compressed_size`, plus the index block's extent when
`index_meta` is present (the accounting of spec §8 property 5). -/
def extentSum (st : LayoutState) : Nat :=
  (st.block_index.map (fun p => PAGE_ROUND_UP p.2.compressed_size)).sum +
  (match st.index_meta with
   | some m => PAGE_ROUND_UP m.compressed_size
   | none => 0)

/-- Sum of the sizes of all holes. -/
def holeSum (st : LayoutState) : Nat :=
  (st.hole_list.map Hole.size).sum

/-! Small frame lemmas: which state components each helper touches. -/

theorem add_hole_file (st : LayoutState) (off sz : Nat) :
    (add_hole st off sz).file = st.file := by
  unfold add_hole; split <;> rfl

theorem add_hole_block_index (st : LayoutState) (off sz : Nat) :
    (add_hole st off sz).block_index = st.block_index := by
  unfold add_hole; split <;> rfl

theorem add_hole_block_offset_index (st : LayoutState) (off sz : Nat) :
    (add_hole st off sz).block_offset_index = st.block_offset_index := by
  unfold add_hole; split <;> rfl

theorem add_hole_index_meta (st : LayoutState) (off sz : Nat) :
    (add_hole st off sz).index_meta = st.index_meta := by
  unfold add_hole; split <;> rfl

theorem add_hole_length (st : LayoutState) (off sz : Nat) :
    (add_hole st off sz).length_ = st.length_ := by
  unfold add_hole; split <;> rfl

theorem get_offset_block_index (st : LayoutState) (sz : Nat) :
    (get_offset st sz).2.block_index = st.block_index := by
  unfold get_offset
  rcases h : getHoleList st.hole_list sz with _ | ⟨off, l2⟩ <;> rfl

theorem get_offset_block_offset_index (st : LayoutState) (sz : Nat) :
    (get_offset st sz).2.block_offset_index = st.block_offset_index := by
  unfold get_offset
  rcases h : getHoleList st.hole_list sz with _ | ⟨off, l2⟩ <;> rfl

theorem get_offset_index_meta (st : LayoutState) (sz : Nat) :
    (get_offset st sz).2.index_meta = st.index_meta := by
  unfold get_offset
  rcases h : getHoleList st.hole_list sz with _ | ⟨off, l2⟩ <;> rfl

theorem get_offset_file (st : LayoutState) (sz : Nat) :
    (get_offset st sz).2.file = st.file := by
  unfold get_offset
  rcases h : getHoleList st.hole_list sz with _ | ⟨off, l2⟩ <;> rfl

theorem truncateOp_block_index (st : LayoutState) :
    (truncateOp st).block_index = st.block_index := by
  unfold truncateOp; split <;> rfl

theorem truncateOp_file (st : LayoutState) :
    (truncateOp st).file = st.file := by
  unfold truncateOp; split <;> rfl

/-- C10: for a `bid` absent from the block index, `delete_block` is a
complete no-op: the returned state (both index views, the hole list,
`offset_`, `length_` and the file) is the very same state, and no error is
reported. -/
theorem c10_delete_absent_noop (st : LayoutState) (bid : Nat)
    (h : lookupA st.block_index bid = none) :
    delete_block st bid = st := by
  unfold delete_block
  rw [h]

/-- Concrete instantiation of the C10 theorem. -/
theorem c10_delete_absent_noop_witness :
    delete_block (freshLayout .kNoCompress (fun _ => 0) 0) 3 =
      freshLayout .kNoCompress (fun _ => 0) 0 :=
  c10_delete_absent_noop (freshLayout .kNoCompress (fun _ => 0) 0) 3 rfl

/-- C6: `load_superblock` succeeds exactly when the copy at offset 0 reads
and parses, or (falling back) the copy at offset `SUPER_BLOCK_SIZE` reads
and parses; it fails exactly when both fail. -/
theorem c6_load_superblock_fallback (st : LayoutState) (r1 r2 : Bool) :
    (load_superblock st r1 r2).isSome = true ↔
      ((r1 = true ∧ (parseSuper (readBytes st.file 0 SUPER_BLOCK_SIZE)).isSome = true) ∨
       (r2 = true ∧
         (parseSuper (readBytes st.file SUPER_BLOCK_SIZE SUPER_BLOCK_SIZE)).isSome = true)) := by
  unfold load_superblock load2ndSuper
  cases r1 <;> cases r2 <;>
    rcases h1 : parseSuper (readBytes st.file 0 SUPER_BLOCK_SIZE) with _ | p1 <;>
    rcases h2 : parseSuper (readBytes st.file SUPER_BLOCK_SIZE SUPER_BLOCK_SIZE) with _ | p2 <;>
    simp [h1, h2]

/-- C7: a completed `async_write` invokes its callback exactly once with the
I/O status.  On failure the block index (both views) and `index_meta` are
untouched and the state is exactly the post-reservation state with the
just-reserved extent `[off, off + PAGE_ROUND_UP(compressed_size))` given
back through `add_hole`; on success the state is exactly `set_block_meta`
of the new meta over the post-reservation, post-file-write state. -/
theorem c7_async_write_completion (mode : Compress) (codec : Codec) (st : LayoutState)
    (bid : Nat) (blk : Block) :
    (async_write mode codec st bid blk false).2 = [false] ∧
    (async_write mode codec st bid blk false).1.block_index = st.block_index ∧
    (async_write mode codec st bid blk false).1.block_offset_index = st.block_offset_index ∧
    (async_write mode codec st bid blk false).1.index_meta = st.index_meta ∧
    (async_write mode codec st bid blk false).1 =
      (let cd := compress_data mode codec blk.data blk.size
       let os := get_offset st (PAGE_ROUND_UP cd.2)
       add_hole os.2 os.1 (PAGE_ROUND_UP cd.2)) ∧
    (async_write mode codec st bid blk true).2 = [true] ∧
    (async_write mode codec st bid blk true).1 =
      (let cd := compress_data mode codec blk.data blk.size
       let os := get_offset st (PAGE_ROUND_UP cd.2)
       set_block_meta
         { os.2 with file := writeBytes os.2.file os.1 (padTo (PAGE_ROUND_UP cd.2) cd.1) }
         bid ⟨os.1, blk.size, cd.2, 0⟩) := by
  refine ⟨rfl, ?_, ?_, ?_, rfl, rfl, rfl⟩
  · show (add_hole _ _ _).block_index = _
    rw [add_hole_block_index, get_offset_block_index]
  · show (add_hole _ _ _).block_offset_index = _
    rw [add_hole_block_offset_index, get_offset_block_offset_index]
  · show (add_hole _ _ _).index_meta = _
    rw [add_hole_index_meta, get_offset_index_meta]

/-- Index of the first hole able to serve a request of `size` bytes,
following the claim's words: the first hole whose size is `≥` the request. -/
def firstFitIdx : List Hole → Nat → Option Nat
  | [], _ => none
  | hd :: tl, sz => if sz ≤ hd.size then some 0 else (firstFitIdx tl sz).map (· + 1)

/-- The claim's description of `get_hole(size)`: first-fit over the list;
an exactly-fitting hole is removed, a larger one is shrunk from the front
(offset advanced by `size`, size decreased by `size`) returning the
original offset; `none` when no hole suffices. -/
def get_hole_spec (l : List Hole) (sz : Nat) : Option (Nat × List Hole) :=
  match firstFitIdx l sz with
  | none => none
  | some i =>
    match l[i]? with
    | none => none
    | some hl =>
      if hl.size = sz then some (hl.offset, l.eraseIdx i)
      else some (hl.offset, l.set i ⟨hl.offset + sz, hl.size - sz⟩)

/-- C4: `get_hole` computes exactly the claim's first-fit description (and
in particular returns `none` leaving the list unchanged when no hole
suffices). -/
theorem c4_get_hole_first_fit (l : List Hole) (sz : Nat) :
    getHoleList l sz = get_hole_spec l sz := by
  induction l with
  | nil => rfl
  | cons hd tl ih =>
    by_cases hlt : sz < hd.size
    · have hle : sz ≤ hd.size := Nat.le_of_lt hlt
      have hne : ¬ hd.size = sz := by omega
      simp [getHoleList, get_hole_spec, firstFitIdx, hlt, hle, hne]
    · by_cases heq : hd.size = sz
      · have hle : sz ≤ hd.size := Nat.le_of_eq heq.symm
        simp [getHoleList, get_hole_spec, firstFitIdx, hlt, hle, heq]
      · have hnle : ¬ sz ≤ hd.size := by omega
        simp only [getHoleList, if_neg hlt, if_neg heq, get_hole_spec, firstFitIdx,
          if_neg hnle]
        rw [ih]
        unfold get_hole_spec
        rcases hf : firstFitIdx tl sz with _ | i
        · simp
        · simp only [Option.map_some]
          rcases hg : tl[i]? with _ | hl
        
          · simp [hg]
          · simp [hg]
            split <;> simp [List.eraseIdx_cons_succ, List.set_cons_succ]

/-! Concrete artefacts used to evaluate the model: an all-zero initial
file, an identity codec (a legal snappy behaviour for these inputs: decomp
inverts comp), a codec whose compressed output is 64 bytes (modelling
snappy shrinking a large compressible index block), and simple blocks. -/

def zeroFile : Nat → Nat := fun _ => 0

def idCodec : Codec := ⟨fun l => l, fun l n => some (l.take n)⟩

def shrinkCodec : Codec := ⟨fun _ => List.replicate 64 0, fun _ _ => none⟩

def mkBlock (v n cap : Nat) : Block := ⟨List.replicate cap v, n⟩

/-- State right after `init(create = true)` over an empty file. -/
def createdWith (mode : Compress) (codec : Codec) : LayoutState :=
  (initLayout mode codec zeroFile 0 true allOk).getD (freshLayout mode zeroFile 0)

/-- C2/C8 failing scenario: create, 158 successful one-byte writes (putting
158 entries in the block index, so the serialized index is
`4 + 158 * 26 = 4112` bytes and `PAGE_ROUND_UP(4112) = 8192`, while its
compressed size 64 occupies one reserved page), then a `flush` whose index
block write fails.  The failure path frees `PAGE_ROUND_UP(inflated size)`
= 8192 bytes although only 4096 were reserved. -/
def c2SeqState : LayoutState :=
  runOps .kSnappyCompress shrinkCodec (createdWith .kSnappyCompress shrinkCodec)
    (((List.range 158).map (fun i => LOp.wr i (mkBlock 0 1 4096) true)) ++
      [LOp.fl false true true])

set_option maxRecDepth 100000 in
/-- C2: after the completed operation sequence of `c2SeqState` (158
completed writes and one completed, failed, flush) the space-conservation
equation of the claim is FALSE: the sums give 663552 while
`file_end_offset = 659456`. -/
theorem c2_space_conservation_violated :
    extentSum c2SeqState + holeSum c2SeqState + 2 * SUPER_BLOCK_SIZE ≠
      c2SeqState.offset_ := by
  decide

/-- C3 failing scenario: create, 159 successful one-byte writes, delete
`bid = 1` (hole `[12288, 16384)` in front of the live extent of `bid = 2`
at `[16384, 20480)`), then a flush whose index block write fails.  The
index write reserves the 4096-byte hole at 12288 but the failure path
gives back 8192 bytes there. -/
def c3SeqState : LayoutState :=
  runOps .kSnappyCompress shrinkCodec (createdWith .kSnappyCompress shrinkCodec)
    (((List.range 159).map (fun i => LOp.wr i (mkBlock 0 1 4096) true)) ++
      [LOp.del 1, LOp.fl false true true])

set_option maxRecDepth 100000 in
/-- C3: after the completed operation sequence of `c3SeqState` a hole of
the hole list (`[12288, 20480)`) overlaps a live extent (`bid = 2` at
`[16384, 20480)`), so the claimed invariant is FALSE between public
operations. -/
theorem c3_hole_overlaps_live_extent :
    ∃ h ∈ c3SeqState.hole_list, ∃ p ∈ c3SeqState.block_index,
      p.2.offset < h.offset + h.size ∧
      h.offset < p.2.offset + PAGE_ROUND_UP p.2.compressed_size := by
  decide

/-- A layout state with 158 live one-page blocks and no index block yet,
as reached by 158 successful writes after a fresh create. -/
def c8State : LayoutState :=
  { file := zeroFile, length_ := 655360, offset_ := 655360,
    block_index := (List.range 158).map (fun i => (i, ⟨8192 + 4096 * i, 1, 64, 0⟩)),
    block_offset_index :=
      (List.range 158).map (fun i => (8192 + 4096 * i, ⟨8192 + 4096 * i, 1, 64, 0⟩)),
    index_meta := none, hole_list := [],
    sb_magic := 0, sb_major := 0, sb_minor := 0,
    sb_compress := .kSnappyCompress, sb_crc := 0 }

set_option maxRecDepth 100000 in
/-- C8: when the index block write fails, `flush_index` does return `false`
and leave `index_meta` unchanged, but the extent it converts back into a
hole is NOT the just-reserved one: the reservation was
`PAGE_ROUND_UP(compressed_size) = 4096` bytes at offset 655360, while the
hole entered is 8192 = `PAGE_ROUND_UP(inflated size)` bytes. -/
theorem c8_flush_index_failure_wrong_hole :
    (flush_index .kSnappyCompress shrinkCodec c8State false).2 = false ∧
    (flush_index .kSnappyCompress shrinkCodec c8State false).1.index_meta =
      c8State.index_meta ∧
    PAGE_ROUND_UP (compress_data .kSnappyCompress shrinkCodec
      (writeIndexBytes c8State.block_index) (get_index_size c8State)).2 = 4096 ∧
    (get_offset c8State 4096).1 = 655360 ∧
    (flush_index .kSnappyCompress shrinkCodec c8State false).1.hole_list =
      [⟨655360, 8192⟩] := by
  decide

theorem flush_superblock_block_index (st : LayoutState) (w1 w2 : Bool) :
    (flush_superblock st w1 w2).1.block_index = st.block_index := by
  unfold flush_superblock
  cases w1 <;> cases w2 <;> rfl

theorem flush_index_block_index (mode : Compress) (codec : Codec) (st : LayoutState)
    (w : Bool) :
    (flush_index mode codec st w).1.block_index = st.block_index := by
  unfold flush_index
  cases w
  · simp only [Bool.false_eq_true, if_false]
    rw [add_hole_block_index, get_offset_block_index]
  · simp only [if_true]
    rcases h : (get_offset st (PAGE_ROUND_UP (compress_data mode codec
        (writeIndexBytes st.block_index) (get_index_size st)).2)).2.index_meta with _ | old
    · simp only [h]
      exact get_offset_block_index st _
    · simp only [h]
      show (add_hole _ _ _).block_index = _
      rw [add_hole_block_index, get_offset_block_index]

theorem flush_index_true_succ (mode : Compress) (codec : Codec) (st : LayoutState) :
    (flush_index mode codec st true).2 = true := by
  unfold flush_index
  simp only [if_true]
  rcases h : (get_offset st (PAGE_ROUND_UP (compress_data mode codec
      (writeIndexBytes st.block_index) (get_index_size st)).2)).2.index_meta with _ | old <;>
    simp [h]

theorem flush_superblock_true_succ (st : LayoutState) :
    (flush_superblock st true true).2 = true := by
  unfold flush_superblock
  rfl

theorem flushOp_block_index (mode : Compress) (codec : Codec) (st : LayoutState)
    (wIdx w1 w2 : Bool) :
    (flushOp mode codec st wIdx w1 w2).1.block_index = st.block_index := by
  unfold flushOp flush_meta
  rcases hIdx : flush_index mode codec st wIdx with ⟨stI, bI⟩
  have hI : stI.block_index = st.block_index := by
    have := flush_index_block_index mode codec st wIdx
    rw [hIdx] at this
    exact this
  cases bI
  · simpa using hI
  · simp only [if_true]
    rcases hSb : flush_superblock stI w1 w2 with ⟨stS, bS⟩
    have hS : stS.block_index = stI.block_index := by
      have := flush_superblock_block_index stI w1 w2
      rw [hSb] at this
      exact this
    cases bS
    · simpa using hS.trans hI
    · simp only [if_true]
      rw [truncateOp_block_index]
      exact hS.trans hI

theorem flushOp_true_succ (mode : Compress) (codec : Codec) (st : LayoutState) :
    (flushOp mode codec st true true true).2 = true := by
  unfold flushOp flush_meta
  rcases hIdx : flush_index mode codec st true with ⟨stI, bI⟩
  have : bI = true := by
    have := flush_index_true_succ mode codec st
    rw [hIdx] at this
    exact this
  subst this
  simp only [if_true]
  rcases hSb : flush_superblock stI true true with ⟨stS, bS⟩
  have : bS = true := by
    have := flush_superblock_true_succ stI
    rw [hSb] at this
    exact this
  subst this
  rfl

/-- The one-block state of spec scenario S2 (bid 1, 1000 bytes, compression
off) after its write completed. -/
def c9Base : LayoutState :=
  (async_write .kNoCompress idCodec (createdWith .kNoCompress idCodec) 1
    (mkBlock 7 1000 4096) true).1

/-- State after one successful flush of `c9Base`. -/
def c9Once : LayoutState := (flushOp .kNoCompress idCodec c9Base true true true).1

/-- State after a second successful flush. -/
def c9Twice : LayoutState := (flushOp .kNoCompress idCodec c9Once true true true).1

/-- C9 counterexample: both flushes succeed, yet the second flush changes
the file length (16384 after one flush, 20480 after two): the second
`flush_index` allocates a fresh page for the index block before the old
index extent is released, so the file grows and the claimed byte-for-byte
identity is FALSE. -/
theorem c9_second_flush_changes_file :
    (flushOp .kNoCompress idCodec c9Base true true true).2 = true ∧
    (flushOp .kNoCompress idCodec c9Once true true true).2 = true ∧
    c9Once.length_ = 16384 ∧ c9Twice.length_ = 20480 := by
  refine ⟨flushOp_true_succ _ _ _, flushOp_true_succ _ _ _, ?_, ?_⟩ <;> decide

/-- C9 amended: a second `flush` still succeeds and leaves the logical
block index unchanged; but it rewrites the index block at a newly
allocated extent, so the on-disk bytes and the file length within
`file_end_offset` are not identical in general. -/
theorem c9_flush_twice_preserves_block_index (mode : Compress) (codec : Codec)
    (st : LayoutState) :
    (flushOp mode codec (flushOp mode codec st true true true).1 true true true).2 = true ∧
    (flushOp mode codec (flushOp mode codec st true true true).1 true true true).1.block_index =
      (flushOp mode codec st true true true).1.block_index := by
  exact ⟨flushOp_true_succ _ _ _, flushOp_block_index _ _ _ _ _ _⟩

def addHoleSpecList (l : List Hole) (h : Hole) : List Hole :=
  let before := l.takeWhile (fun x => decide (x.offset < h.offset))
  let after := l.dropWhile (fun x => decide (x.offset < h.offset))
  match before.getLast? with
  | none =>
    match after with
    | [] => [h]
    | nx :: rest =>
      if h.offset + h.size = nx.offset then ⟨h.offset, nx.size + h.size⟩ :: rest
      else h :: nx :: rest
  | some p =>
    if p.offset + p.size = h.offset then
      match after with
      | [] => before.dropLast ++ [⟨p.offset, p.size + h.size⟩]
      | nx :: rest =>
        if p.offset + (p.size + h.size) = nx.offset then
          before.dropLast ++ ⟨p.offset, (p.size + h.size) + nx.size⟩ :: rest
        else before.dropLast ++ ⟨p.offset, p.size + h.size⟩ :: nx :: rest
    else
      match after with
      | [] => before ++ [h]
      | nx :: rest =>
        if h.offset + h.size = nx.offset then before ++ ⟨h.offset, h.size + nx.size⟩ :: rest
        else before ++ h :: nx :: rest

theorem addHoleList_eq_spec (l : List Hole) (h : Hole)
    (hne : ∀ x ∈ l, x.offset ≠ h.offset) :
    addHoleList l h = addHoleSpecList l h := by
  induction l with
  | nil => rfl
  | cons hd tl ih =>
    by_cases h1 : h.offset < hd.offset
    · have hpred : ¬ hd.offset < h.offset := by omega
      rw [addHoleList.eq_def]
      simp only [if_pos h1, addHoleSpecList,
        List.takeWhile_cons, List.dropWhile_cons, decide_eq_true_eq, hpred,
        if_false, decide_False]
      simp [List.getLast?]
    · have hlt : hd.offset < h.offset := by
        have := hne hd (List.mem_cons_self hd tl)
        omega
      have hne2 : ∀ x ∈ tl, x.offset ≠ h.offset := fun x hx => hne x (List.mem_cons_of_mem hd hx)
      cases tl with
      | nil =>
        simp only [addHoleList, if_neg h1, mergeAfter, attachNext, addHoleSpecList,
          List.takeWhile_cons, List.dropWhile_cons, decide_eq_true_eq, hlt, if_pos,
          decide_True, List.takeWhile_nil, List.dropWhile_nil]
        simp [List.getLast?]
      | cons nx tl2 =>
        by_cases h2 : nx.offset < h.offset
        · -- the predecessor lies further right: both sides keep `hd` and recurse
          have hspec : addHoleSpecList (hd :: nx :: tl2) h = hd :: addHoleSpecList (nx :: tl2) h := by
            have htw : (hd :: nx :: tl2).takeWhile (fun x => decide (x.offset < h.offset)) =
                hd :: (nx :: tl2).takeWhile (fun x => decide (x.offset < h.offset)) := by
              simp [List.takeWhile_cons, hlt]
            have hdw : (hd :: nx :: tl2).dropWhile (fun x => decide (x.offset < h.offset)) =
                (nx :: tl2).dropWhile (fun x => decide (x.offset < h.offset)) := by
              simp [List.dropWhile_cons, hlt]
            have htw2 : (nx :: tl2).takeWhile (fun x => decide (x.offset < h.offset)) =
                nx :: tl2.takeWhile (fun x => decide (x.offset < h.offset)) := by
              simp [List.takeWhile_cons, h2]
            simp only [addHoleSpecList, htw, hdw, htw2, List.getLast?_cons_cons]
            rcases hgl : (nx :: tl2.takeWhile (fun x => decide (x.offset < h.offset))).getLast? with _ | p
            · simp at hgl
            · simp only []
              rcases hdw2 : (nx :: tl2).dropWhile (fun x => decide (x.offset < h.offset)) with _ | ⟨c, d⟩
              · rw [hdw2]
                split <;> rfl
              · rw [hdw2]
                split <;> split <;> (try rfl) <;> split <;> rfl
          rw [addHoleList.eq_def]
          simp only [if_neg h1, if_pos h2, hspec]
          rw [ih hne2]
        · have hspec2 : (nx :: tl2).takeWhile (fun x => decide (x.offset < h.offset)) = [] := by
            simp [List.takeWhile_cons, h2]
          have hspec3 : (nx :: tl2).dropWhile (fun x => decide (x.offset < h.offset)) = nx :: tl2 := by
            simp [List.dropWhile_cons, h2]
          rw [addHoleList.eq_def]
          simp only [if_neg h1, if_neg h2, addHoleSpecList, List.takeWhile_cons,
            List.dropWhile_cons, decide_eq_true_eq, hlt, decide_True, if_pos, if_true,
            hspec2, hspec3]
          simp only [mergeAfter, attachNext, List.getLast?_singleton]
          split <;> split <;> simp_all

/-- The claim's description of `add_hole(offset, size)` at state level:
tail absorption when the hole ends at `file_end_offset`, otherwise the
predecessor/merge/insert logic of `addHoleSpecList`. -/
def add_hole_spec (st : LayoutState) (off sz : Nat) : LayoutState :=
  if off + sz = st.offset_ then { st with offset_ := off }
  else { st with hole_list := addHoleSpecList st.hole_list ⟨off, sz⟩ }

/-- C5: on an offset-sorted hole list none of whose holes overlaps the new
extent (the `add_hole` assertions), `add_hole` behaves exactly as the claim
describes: tail absorption leaves the list untouched and shrinks
`file_end_offset`; otherwise the hole is merged with the predecessor (the
last hole with smaller offset) when contiguous, then with the successor
when contiguous, and inserted in sorted position otherwise. -/
theorem c5_add_hole_matches_spec (st : LayoutState) (off sz : Nat)
    (_hsort : List.Chain' (fun a b : Hole => a.offset < b.offset) st.hole_list)
    (hdisj : ∀ x ∈ st.hole_list, x.offset + x.size ≤ off ∨ off + sz ≤ x.offset)
    (hpos : ∀ x ∈ st.hole_list, 0 < x.size) (hsz : 0 < sz) :
    add_hole st off sz = add_hole_spec st off sz := by
  unfold add_hole add_hole_spec
  split
  · rfl
  · rw [addHoleList_eq_spec]
    intro x hx
    rcases hdisj x hx with h | h <;> (have hq := hpos x hx; simp only [] at h hq ⊢; omega)

/-- A state with two sorted holes used to instantiate the C5 theorem. -/
def c5WState : LayoutState :=
  { freshLayout .kNoCompress zeroFile 0 with
      hole_list := [⟨8192, 4096⟩, ⟨20480, 4096⟩], offset_ := 100000 }

/-- Concrete instantiation of the C5 theorem: inserting the extent
`[16384, 20480)` merges with the successor hole at 20480. -/
theorem c5_add_hole_matches_spec_witness :
    add_hole c5WState 16384 4096 = add_hole_spec c5WState 16384 4096 :=
  c5_add_hole_matches_spec c5WState 16384 4096
    (by
      have hl : c5WState.hole_list = [⟨8192, 4096⟩, ⟨20480, 4096⟩] := rfl
      rw [hl]
      exact List.chain'_cons.mpr ⟨by decide, List.chain'_singleton _⟩)
    (by decide) (by decide) (by decide)

/-! Byte-level lemmas for the round-trip proof. -/

theorem encodeLE_length (w v : Nat) : (encodeLE w v).length = w := by
  induction w generalizing v with
  | zero => rfl
  | succ w ih => simp [encodeLE, ih]

theorem decodeLE_encodeLE_append (w v : Nat) (r : List Nat) (h : v < 256 ^ w) :
    decodeLE w (encodeLE w v ++ r) = some (v, r) := by
  induction w generalizing v with
  | zero =>
    have : v = 0 := by simpa using h
    subst this
    rfl
  | succ w ih =>
    have hdiv : v / 256 < 256 ^ w := by
      rw [Nat.div_lt_iff_lt_mul (by norm_num)]
      calc v < 256 ^ (w + 1) := h
        _ = 256 ^ w * 256 := by ring
    simp only [encodeLE, List.cons_append, decodeLE]
    rw [show (encodeLE w (v / 256)).append r = encodeLE w (v / 256) ++ r from rfl,
      ih (v / 256) hdiv]
    simp [Nat.mod_add_div]

theorem writeBlockMetaBytes_length (m : BlockMeta) :
    (writeBlockMetaBytes m).length = BLOCK_META_SIZE := by
  simp [writeBlockMetaBytes, encodeLE_length, BLOCK_META_SIZE]

/-- Bounds under which a `BlockMeta` serializes loss-free: each field fits
its wire width. -/
def MetaFits (m : BlockMeta) : Prop :=
  m.offset < 2 ^ 64 ∧ m.inflated_size < 2 ^ 32 ∧ m.compressed_size < 2 ^ 32 ∧
    m.crc < 2 ^ 16

instance (m : BlockMeta) : Decidable (MetaFits m) := by
  unfold MetaFits
  infer_instance

theorem readBlockMetaBytes_roundtrip (m : BlockMeta) (r : List Nat) (h : MetaFits m) :
    readBlockMetaBytes (writeBlockMetaBytes m ++ r) = some (m, r) := by
  obtain ⟨h1, h2, h3, h4⟩ := h
  have e1 : (256 : Nat) ^ 8 = 2 ^ 64 := by norm_num
  have e2 : (256 : Nat) ^ 4 = 2 ^ 32 := by norm_num
  have e3 : (256 : Nat) ^ 2 = 2 ^ 16 := by norm_num
  simp only [writeBlockMetaBytes, readBlockMetaBytes, List.append_assoc,
    decodeLE_encodeLE_append 8 m.offset _ (by rw [e1]; exact h1),
    decodeLE_encodeLE_append 4 m.inflated_size _ (by rw [e2]; exact h2),
    decodeLE_encodeLE_append 4 m.compressed_size _ (by rw [e2]; exact h3),
    decodeLE_encodeLE_append 2 m.crc _ (by rw [e3]; exact h4)]

theorem parseSuper_roundtrip (st : LayoutState) (r : List Nat)
    (hmagic : st.sb_magic < 2 ^ 64) (hmaj : st.sb_major < 2 ^ 8)
    (hmin : st.sb_minor < 2 ^ 8) (hcrc : st.sb_crc < 2 ^ 16)
    (hmeta : ∀ m, st.index_meta = some m → MetaFits m) :
    parseSuper (writeSuperBytes st ++ r) =
      some ⟨st.sb_magic, st.sb_major, st.sb_minor, compressTag st.sb_compress,
            st.index_meta, st.sb_crc⟩ := by
  have e1 : (256 : Nat) ^ 8 = 2 ^ 64 := by norm_num
  have e2 : (256 : Nat) ^ 1 = 2 ^ 8 := by norm_num
  have e3 : (256 : Nat) ^ 2 = 2 ^ 16 := by norm_num
  have htag : compressTag st.sb_compress < 2 ^ 8 := by
    cases st.sb_compress <;> simp [compressTag]
  rcases him : st.index_meta with _ | m
  · simp only [writeSuperBytes, him, parseSuper, List.append_assoc, List.cons_append,
      decodeLE_encodeLE_append 8 st.sb_magic _ (by rw [e1]; exact hmagic),
      decodeLE_encodeLE_append 1 st.sb_major _ (by rw [e2]; exact hmaj),
      decodeLE_encodeLE_append 1 st.sb_minor _ (by rw [e2]; exact hmin),
      decodeLE_encodeLE_append 1 (compressTag st.sb_compress) _ (by rw [e2]; exact htag),
      decodeLE_encodeLE_append 2 st.sb_crc _ (by rw [e3]; exact hcrc)]
    simp [decodeLE_encodeLE_append 2 st.sb_crc r (by rw [e3]; exact hcrc)]
  · have hm : MetaFits m := hmeta m him
    simp only [writeSuperBytes, him, parseSuper, List.append_assoc, List.cons_append,
      decodeLE_encodeLE_append 8 st.sb_magic _ (by rw [e1]; exact hmagic),
      decodeLE_encodeLE_append 1 st.sb_major _ (by rw [e2]; exact hmaj),
      decodeLE_encodeLE_append 1 st.sb_minor _ (by rw [e2]; exact hmin),
      decodeLE_encodeLE_append 1 (compressTag st.sb_compress) _ (by rw [e2]; exact htag),
      readBlockMetaBytes_roundtrip m _ hm,
      decodeLE_encodeLE_append 2 st.sb_crc _ (by rw [e3]; exact hcrc)]
    simp

theorem parseEntries_roundtrip (l : List (Nat × BlockMeta)) (r : List Nat)
    (hb : ∀ p ∈ l, p.1 < 2 ^ 64 ∧ MetaFits p.2) :
    parseEntries l.length (writeEntries l ++ r) = some (l, r) := by
  induction l with
  | nil => rfl
  | cons hd tl ih =>
    have e1 : (256 : Nat) ^ 8 = 2 ^ 64 := by norm_num
    obtain ⟨hb1, hb2⟩ := hb hd (List.mem_cons_self hd tl)
    have ihtl := ih (fun p hp => hb p (List.mem_cons_of_mem hd hp))
    simp only [List.length_cons, writeEntries, parseEntries, List.append_assoc,
      decodeLE_encodeLE_append 8 hd.1 _ (by rw [e1]; exact hb1),
      readBlockMetaBytes_roundtrip hd.2 _ hb2, ihtl]

theorem parseIndex_roundtrip (l : List (Nat × BlockMeta)) (r : List Nat)
    (hn : l.length < 2 ^ 32) (hb : ∀ p ∈ l, p.1 < 2 ^ 64 ∧ MetaFits p.2) :
    parseIndex (writeIndexBytes l ++ r) = some l := by
  have e2 : (256 : Nat) ^ 4 = 2 ^ 32 := by norm_num
  simp only [writeIndexBytes, parseIndex, List.append_assoc,
    decodeLE_encodeLE_append 4 l.length _ (by rw [e2]; exact hn),
    parseEntries_roundtrip l r hb]

theorem writeEntries_length (l : List (Nat × BlockMeta)) :
    (writeEntries l).length = l.length * (8 + BLOCK_META_SIZE) := by
  induction l with
  | nil => rfl
  | cons hd tl ih =>
    simp [writeEntries, encodeLE_length, writeBlockMetaBytes_length, ih, BLOCK_META_SIZE]
    ring

theorem writeIndexBytes_length (l : List (Nat × BlockMeta)) :
    (writeIndexBytes l).length = 4 + l.length * (8 + BLOCK_META_SIZE) := by
  simp [writeIndexBytes, encodeLE_length, writeEntries_length]

theorem padTo_length (n : Nat) (l : List Nat) : (padTo n l).length = n := by
  simp [padTo]
  omega

theorem padTo_of_length_le (n : Nat) (l : List Nat) (h : l.length ≤ n) :
    padTo n l = l ++ List.replicate (n - l.length) 0 := by
  simp [padTo, List.take_of_length_le h]

theorem padTo_take_own_length (n : Nat) (l : List Nat) (h : l.length ≤ n) :
    (padTo n l).take l.length = l := by
  rw [padTo_of_length_le n l h]
  simp

theorem PAGE_ROUND_UP_bounds (x : Nat) :
    x ≤ PAGE_ROUND_UP x ∧ PAGE_ROUND_UP x < x + PAGE_SIZE := by
  unfold PAGE_ROUND_UP PAGE_SIZE
  have h := Nat.div_add_mod (x + 4095) 4096
  have h2 : (x + 4095) % 4096 < 4096 := Nat.mod_lt _ (by omega)
  omega

/-! File-level frame lemmas. -/

theorem readBytes_length (f : Nat → Nat) (off n : Nat) :
    (readBytes f off n).length = n := by
  simp [readBytes]

theorem readBytes_writeBytes_exact (f : Nat → Nat) (off : Nat) (l : List Nat) :
    readBytes (writeBytes f off l) off l.length = l := by
  apply List.ext_getElem
  · simp [readBytes]
  · intro i h1 h2
    simp only [readBytes, writeBytes, List.getElem_map, List.getElem_range]
    rw [if_pos]
    · rw [Nat.add_sub_cancel_left]
      exact List.getD_eq_getElem l 0 h2
    · constructor
      · omega
      · simp [readBytes] at h1
        omega

theorem readBytes_writeBytes_left (f : Nat → Nat) (off2 : Nat) (l : List Nat)
    (off n : Nat) (h : off + n ≤ off2) :
    readBytes (writeBytes f off2 l) off n = readBytes f off n := by
  apply List.ext_getElem
  · simp [readBytes_length]
  · intro i h1 h2
    simp only [readBytes, writeBytes, List.getElem_map, List.getElem_range]
    rw [if_neg]
    simp [readBytes] at h1
    omega

theorem readBytes_writeBytes_right (f : Nat → Nat) (off2 : Nat) (l : List Nat)
    (off n : Nat) (h : off2 + l.length ≤ off) :
    readBytes (writeBytes f off2 l) off n = readBytes f off n := by
  apply List.ext_getElem
  · simp [readBytes_length]
  · intro i h1 h2
    simp only [readBytes, writeBytes, List.getElem_map, List.getElem_range]
    rw [if_neg]
    omega

theorem readBytes_writeBytes_len (f : Nat → Nat) (off : Nat) (l : List Nat) (n : Nat)
    (h : n = l.length) :
    readBytes (writeBytes f off l) off n = l := by
  rw [h]
  exact readBytes_writeBytes_exact f off l

theorem get_offset_no_holes (st : LayoutState) (sz : Nat) (h0 : st.hole_list = [])
    (hgrow : st.length_ ≤ st.offset_) (hsz : 0 < sz) :
    get_offset st sz =
      (st.offset_, { st with offset_ := st.offset_ + sz, length_ := st.offset_ + sz }) := by
  unfold get_offset
  rw [h0]
  simp only [getHoleList]
  have hgt : st.offset_ + sz > st.length_ := by omega
  simp [hgt]

theorem truncateOp_of_ge (st : LayoutState) (h : st.length_ ≤ st.offset_) :
    truncateOp st = st := by
  unfold truncateOp
  rw [if_neg (by omega)]

/-! The C1 pipeline: explicit intermediate states of
`init(create) ; async_write ; flush ; init(open) ; read` over an arbitrary
initial file. -/

/-- Bytes of the superblock extent written by `init(create = true)`. -/
def c1Sb0 (mode : Compress) (f0 : Nat → Nat) (len0 : Nat) : List Nat :=
  padTo SUPER_BLOCK_SIZE (writeSuperBytes (freshLayout mode f0 len0))

/-- State after `init(create = true)`. -/
def c1Created (mode : Compress) (f0 : Nat → Nat) (len0 : Nat) : LayoutState :=
  { freshLayout mode f0 len0 with
      file := writeBytes (writeBytes f0 0 (c1Sb0 mode f0 len0)) SUPER_BLOCK_SIZE
        (c1Sb0 mode f0 len0),
      offset_ := 2 * SUPER_BLOCK_SIZE,
      length_ := 2 * SUPER_BLOCK_SIZE }

theorem initLayout_create_eq (mode : Compress) (codec : Codec) (f0 : Nat → Nat)
    (len0 : Nat) :
    initLayout mode codec f0 len0 true allOk = some (c1Created mode f0 len0) := rfl

/-- The meta installed for the written block: offset `2 * SUPER_BLOCK_SIZE`,
the block's size, and the compressed size. -/
def c1Meta (mode : Compress) (codec : Codec) (b : Block) : BlockMeta :=
  ⟨2 * SUPER_BLOCK_SIZE, b.size, (compress_data mode codec b.data b.size).2, 0⟩

/-- State after the completed successful `async_write(bid, b)`. -/
def c1Written (mode : Compress) (codec : Codec) (f0 : Nat → Nat) (len0 : Nat)
    (bid : Nat) (b : Block) : LayoutState :=
  { c1Created mode f0 len0 with
      file := writeBytes (c1Created mode f0 len0).file (2 * SUPER_BLOCK_SIZE)
        (padTo (PAGE_ROUND_UP (compress_data mode codec b.data b.size).2)
          (compress_data mode codec b.data b.size).1),
      offset_ := 2 * SUPER_BLOCK_SIZE +
        PAGE_ROUND_UP (compress_data mode codec b.data b.size).2,
      length_ := 2 * SUPER_BLOCK_SIZE +
        PAGE_ROUND_UP (compress_data mode codec b.data b.size).2,
      block_index := [(bid, c1Meta mode codec b)],
      block_offset_index := [(2 * SUPER_BLOCK_SIZE, c1Meta mode codec b)] }

theorem async_write_c1 (mode : Compress) (codec : Codec) (f0 : Nat → Nat) (len0 : Nat)
    (bid : Nat) (b : Block) (hcs : 0 < (compress_data mode codec b.data b.size).2) :
    async_write mode codec (c1Created mode f0 len0) bid b true =
      (c1Written mode codec f0 len0 bid b, [true]) := by
  have hrs : 0 < PAGE_ROUND_UP (compress_data mode codec b.data b.size).2 := by
    have := (PAGE_ROUND_UP_bounds (compress_data mode codec b.data b.size).2).1
    omega
  have h1 : async_write mode codec (c1Created mode f0 len0) bid b true =
      (set_block_meta
        { (get_offset (c1Created mode f0 len0)
            (PAGE_ROUND_UP (compress_data mode codec b.data b.size).2)).2 with
          file := writeBytes
            (get_offset (c1Created mode f0 len0)
              (PAGE_ROUND_UP (compress_data mode codec b.data b.size).2)).2.file
            (get_offset (c1Created mode f0 len0)
              (PAGE_ROUND_UP (compress_data mode codec b.data b.size).2)).1
            (padTo (PAGE_ROUND_UP (compress_data mode codec b.data b.size).2)
              (compress_data mode codec b.data b.size).1) }
        bid ⟨(get_offset (c1Created mode f0 len0)
              (PAGE_ROUND_UP (compress_data mode codec b.data b.size).2)).1,
             b.size, (compress_data mode codec b.data b.size).2, 0⟩, [true]) := rfl
  rw [h1, get_offset_no_holes _ _ rfl (le_refl _) hrs]
  rfl

/-- Serialized index payload for the single written block:
`count:4 | bid:8 | BlockMeta` = 30 bytes. -/
def c1IdxPayload (mode : Compress) (codec : Codec) (bid : Nat) (b : Block) : List Nat :=
  writeIndexBytes [(bid, c1Meta mode codec b)]

/-- The index block meta stored by the flush: placed right after the data
block, inflated size 30, compressed size given by the codec. -/
def c1IdxMeta (mode : Compress) (codec : Codec) (bid : Nat) (b : Block) : BlockMeta :=
  ⟨2 * SUPER_BLOCK_SIZE + PAGE_ROUND_UP (compress_data mode codec b.data b.size).2, 30,
   (compress_data mode codec (c1IdxPayload mode codec bid b) 30).2, 0⟩

/-- State after `flush_index` succeeded during the flush. -/
def c1Mid (mode : Compress) (codec : Codec) (f0 : Nat → Nat) (len0 : Nat)
    (bid : Nat) (b : Block) : LayoutState :=
  { c1Written mode codec f0 len0 bid b with
      file := writeBytes (c1Written mode codec f0 len0 bid b).file
        (2 * SUPER_BLOCK_SIZE + PAGE_ROUND_UP (compress_data mode codec b.data b.size).2)
        (padTo (PAGE_ROUND_UP (compress_data mode codec (c1IdxPayload mode codec bid b) 30).2)
          (compress_data mode codec (c1IdxPayload mode codec bid b) 30).1),
      offset_ := 2 * SUPER_BLOCK_SIZE +
        PAGE_ROUND_UP (compress_data mode codec b.data b.size).2 +
        PAGE_ROUND_UP (compress_data mode codec (c1IdxPayload mode codec bid b) 30).2,
      length_ := 2 * SUPER_BLOCK_SIZE +
        PAGE_ROUND_UP (compress_data mode codec b.data b.size).2 +
        PAGE_ROUND_UP (compress_data mode codec (c1IdxPayload mode codec bid b) 30).2,
      block_offset_index :=
        [(2 * SUPER_BLOCK_SIZE, c1Meta mode codec b),
         (2 * SUPER_BLOCK_SIZE + PAGE_ROUND_UP (compress_data mode codec b.data b.size).2,
          c1IdxMeta mode codec bid b)],
      index_meta := some (c1IdxMeta mode codec bid b) }

theorem flush_index_c1 (mode : Compress) (codec : Codec) (f0 : Nat → Nat) (len0 : Nat)
    (bid : Nat) (b : Block) (hcs : 0 < (compress_data mode codec b.data b.size).2)
    (hcsI : 0 < (compress_data mode codec (c1IdxPayload mode codec bid b) 30).2) :
    flush_index mode codec (c1Written mode codec f0 len0 bid b) true =
      (c1Mid mode codec f0 len0 bid b, true) := by
  have hrs : 0 < PAGE_ROUND_UP (compress_data mode codec b.data b.size).2 := by
    have := (PAGE_ROUND_UP_bounds (compress_data mode codec b.data b.size).2).1
    omega
  have hrsI : 0 < PAGE_ROUND_UP (compress_data mode codec (c1IdxPayload mode codec bid b) 30).2 := by
    have := (PAGE_ROUND_UP_bounds (compress_data mode codec (c1IdxPayload mode codec bid b) 30).2).1
    omega
  have hgo := get_offset_no_holes (c1Written mode codec f0 len0 bid b)
    (PAGE_ROUND_UP (compress_data mode codec (c1IdxPayload mode codec bid b) 30).2)
    rfl (le_refl _) hrsI
  have hofs : (c1Written mode codec f0 len0 bid b).offset_ =
      2 * SUPER_BLOCK_SIZE + PAGE_ROUND_UP (compress_data mode codec b.data b.size).2 := rfl
  have hins2 : insertA [(2 * SUPER_BLOCK_SIZE, c1Meta mode codec b)]
      (c1Written mode codec f0 len0 bid b).offset_
      ⟨(c1Written mode codec f0 len0 bid b).offset_, 30,
        (compress_data mode codec (c1IdxPayload mode codec bid b) 30).2, 0⟩ =
      [(2 * SUPER_BLOCK_SIZE, c1Meta mode codec b),
       ((c1Written mode codec f0 len0 bid b).offset_,
        ⟨(c1Written mode codec f0 len0 bid b).offset_, 30,
          (compress_data mode codec (c1IdxPayload mode codec bid b) 30).2, 0⟩)] := by
    unfold insertA
    rw [if_neg (by rw [hofs]; omega), if_neg (by rw [hofs]; omega)]
    rfl
  simp only [flush_index, get_index_size]
  rw [show writeIndexBytes (c1Written mode codec f0 len0 bid b).block_index =
      c1IdxPayload mode codec bid b from rfl,
    show (4 + (c1Written mode codec f0 len0 bid b).block_index.length *
      (8 + BLOCK_META_SIZE)) = 30 from rfl,
    hgo]
  show ({ c1Mid mode codec f0 len0 bid b with
      block_offset_index := insertA [(2 * SUPER_BLOCK_SIZE, c1Meta mode codec b)]
        (c1Written mode codec f0 len0 bid b).offset_
        ⟨(c1Written mode codec f0 len0 bid b).offset_, 30,
          (compress_data mode codec (c1IdxPayload mode codec bid b) 30).2, 0⟩ }, true) =
    (c1Mid mode codec f0 len0 bid b, true)
  rw [hins2]
  rfl

/-- Superblock bytes written by the flush (now carrying the index meta). -/
def c1Sb2 (mode : Compress) (codec : Codec) (f0 : Nat → Nat) (len0 : Nat)
    (bid : Nat) (b : Block) : List Nat :=
  padTo SUPER_BLOCK_SIZE (writeSuperBytes (c1Mid mode codec f0 len0 bid b))

/-- State after the whole `flush()` (index block, double superblock write,
truncate). -/
def c1Flushed (mode : Compress) (codec : Codec) (f0 : Nat → Nat) (len0 : Nat)
    (bid : Nat) (b : Block) : LayoutState :=
  { c1Mid mode codec f0 len0 bid b with
      file := writeBytes
        (writeBytes (c1Mid mode codec f0 len0 bid b).file 0 (c1Sb2 mode codec f0 len0 bid b))
        SUPER_BLOCK_SIZE (c1Sb2 mode codec f0 len0 bid b) }

theorem flushOp_c1 (mode : Compress) (codec : Codec) (f0 : Nat → Nat) (len0 : Nat)
    (bid : Nat) (b : Block) (hcs : 0 < (compress_data mode codec b.data b.size).2)
    (hcsI : 0 < (compress_data mode codec (c1IdxPayload mode codec bid b) 30).2) :
    flushOp mode codec (c1Written mode codec f0 len0 bid b) true true true =
      (c1Flushed mode codec f0 len0 bid b, true) := by
  have h1 : flush_meta mode codec (c1Written mode codec f0 len0 bid b) true true true =
      (c1Flushed mode codec f0 len0 bid b, true) := by
    unfold flush_meta
    rw [flush_index_c1 mode codec f0 len0 bid b hcs hcsI]
    rfl
  unfold flushOp
  rw [h1]
  show (truncateOp (c1Flushed mode codec f0 len0 bid b), true) =
    (c1Flushed mode codec f0 len0 bid b, true)
  rw [truncateOp_of_ge _ (le_refl _)]

theorem init_block_offset_index_block_index (st : LayoutState) :
    (init_block_offset_index st).block_index = st.block_index := by
  unfold init_block_offset_index
  rcases st.index_meta with _ | m <;> rfl

theorem init_block_offset_index_file (st : LayoutState) :
    (init_block_offset_index st).file = st.file := by
  unfold init_block_offset_index
  rcases st.index_meta with _ | m <;> rfl

theorem foldl_add_hole_block_index (gaps : List (Nat × Nat)) (st : LayoutState) :
    (gaps.foldl (fun acc g => add_hole acc g.1 g.2) st).block_index = st.block_index := by
  induction gaps generalizing st with
  | nil => rfl
  | cons hd tl ih => simp [List.foldl_cons, ih, add_hole_block_index]

theorem foldl_add_hole_file (gaps : List (Nat × Nat)) (st : LayoutState) :
    (gaps.foldl (fun acc g => add_hole acc g.1 g.2) st).file = st.file := by
  induction gaps generalizing st with
  | nil => rfl
  | cons hd tl ih => simp [List.foldl_cons, ih, add_hole_file]

theorem init_holes_block_index (st : LayoutState) :
    (init_holes st).block_index = st.block_index := by
  unfold init_holes
  rcases st.block_offset_index.getLast? with _ | p
  · simp only []
    exact foldl_add_hole_block_index _ _
  · simp only []
    exact foldl_add_hole_block_index _ _

theorem init_holes_file (st : LayoutState) :
    (init_holes st).file = st.file := by
  unfold init_holes
  rcases st.block_offset_index.getLast? with _ | p
  · simp only []
    exact foldl_add_hole_file _ _
  · simp only []
    exact foldl_add_hole_file _ _

theorem c1Sb2_length (mode : Compress) (codec : Codec) (f0 : Nat → Nat) (len0 : Nat)
    (bid : Nat) (b : Block) :
    (c1Sb2 mode codec f0 len0 bid b).length = SUPER_BLOCK_SIZE :=
  padTo_length _ _

theorem c1_read_sb (mode : Compress) (codec : Codec) (f0 : Nat → Nat) (len0 : Nat)
    (bid : Nat) (b : Block) :
    readBytes (c1Flushed mode codec f0 len0 bid b).file 0 SUPER_BLOCK_SIZE =
      c1Sb2 mode codec f0 len0 bid b := by
  show readBytes
    (writeBytes
      (writeBytes (c1Mid mode codec f0 len0 bid b).file 0 (c1Sb2 mode codec f0 len0 bid b))
      SUPER_BLOCK_SIZE (c1Sb2 mode codec f0 len0 bid b)) 0 SUPER_BLOCK_SIZE =
    c1Sb2 mode codec f0 len0 bid b
  rw [readBytes_writeBytes_left _ _ _ _ _ (by omega)]
  exact readBytes_writeBytes_len _ _ _ _ (padTo_length _ _).symm

theorem c1_read_idx (mode : Compress) (codec : Codec) (f0 : Nat → Nat) (len0 : Nat)
    (bid : Nat) (b : Block) :
    readBytes (c1Flushed mode codec f0 len0 bid b).file
      (2 * SUPER_BLOCK_SIZE + PAGE_ROUND_UP (compress_data mode codec b.data b.size).2)
      (PAGE_ROUND_UP (compress_data mode codec (c1IdxPayload mode codec bid b) 30).2) =
      padTo (PAGE_ROUND_UP (compress_data mode codec (c1IdxPayload mode codec bid b) 30).2)
        (compress_data mode codec (c1IdxPayload mode codec bid b) 30).1 := by
  show readBytes
    (writeBytes
      (writeBytes
        (writeBytes (c1Written mode codec f0 len0 bid b).file
          (2 * SUPER_BLOCK_SIZE + PAGE_ROUND_UP (compress_data mode codec b.data b.size).2)
          (padTo (PAGE_ROUND_UP (compress_data mode codec (c1IdxPayload mode codec bid b) 30).2)
            (compress_data mode codec (c1IdxPayload mode codec bid b) 30).1))
        0 (c1Sb2 mode codec f0 len0 bid b))
      SUPER_BLOCK_SIZE (c1Sb2 mode codec f0 len0 bid b))
    (2 * SUPER_BLOCK_SIZE + PAGE_ROUND_UP (compress_data mode codec b.data b.size).2)
    (PAGE_ROUND_UP (compress_data mode codec (c1IdxPayload mode codec bid b) 30).2) = _
  rw [readBytes_writeBytes_right _ _ _ _ _ (by rw [c1Sb2_length]; omega)]
  rw [readBytes_writeBytes_right _ _ _ _ _ (by rw [c1Sb2_length]; omega)]
  exact readBytes_writeBytes_len _ _ _ _ (padTo_length _ _).symm

theorem c1_read_data (mode : Compress) (codec : Codec) (f0 : Nat → Nat) (len0 : Nat)
    (bid : Nat) (b : Block) :
    readBytes (c1Flushed mode codec f0 len0 bid b).file (2 * SUPER_BLOCK_SIZE)
      (PAGE_ROUND_UP (compress_data mode codec b.data b.size).2) =
      padTo (PAGE_ROUND_UP (compress_data mode codec b.data b.size).2)
        (compress_data mode codec b.data b.size).1 := by
  show readBytes
    (writeBytes
      (writeBytes
        (writeBytes
          (writeBytes (c1Created mode f0 len0).file (2 * SUPER_BLOCK_SIZE)
            (padTo (PAGE_ROUND_UP (compress_data mode codec b.data b.size).2)
              (compress_data mode codec b.data b.size).1))
          (2 * SUPER_BLOCK_SIZE + PAGE_ROUND_UP (compress_data mode codec b.data b.size).2)
          (padTo (PAGE_ROUND_UP (compress_data mode codec (c1IdxPayload mode codec bid b) 30).2)
            (compress_data mode codec (c1IdxPayload mode codec bid b) 30).1))
        0 (c1Sb2 mode codec f0 len0 bid b))
      SUPER_BLOCK_SIZE (c1Sb2 mode codec f0 len0 bid b))
    (2 * SUPER_BLOCK_SIZE)
    (PAGE_ROUND_UP (compress_data mode codec b.data b.size).2) = _
  rw [readBytes_writeBytes_right _ _ _ _ _ (by rw [c1Sb2_length]; omega)]
  rw [readBytes_writeBytes_right _ _ _ _ _ (by rw [c1Sb2_length]; omega)]
  rw [readBytes_writeBytes_left _ _ _ _ _ (by omega)]
  exact readBytes_writeBytes_len _ _ _ _ (padTo_length _ _).symm

set_option maxRecDepth 8000 in
theorem c1_parse_sb (mode : Compress) (codec : Codec) (f0 : Nat → Nat) (len0 : Nat)
    (bid : Nat) (b : Block)
    (hcs32 : (compress_data mode codec b.data b.size).2 < 2 ^ 32)
    (hcsI32 : (compress_data mode codec (c1IdxPayload mode codec bid b) 30).2 < 2 ^ 32) :
    parseSuper (c1Sb2 mode codec f0 len0 bid b) =
      some ⟨0, 0, 0, compressTag mode, some (c1IdxMeta mode codec bid b), 0⟩ := by
  have hW : writeSuperBytes (c1Mid mode codec f0 len0 bid b) =
      encodeLE 8 0 ++ encodeLE 1 0 ++ encodeLE 1 0 ++ encodeLE 1 (compressTag mode) ++
      (1 :: writeBlockMetaBytes (c1IdxMeta mode codec bid b)) ++ encodeLE 2 0 := rfl
  have hlen : (writeSuperBytes (c1Mid mode codec f0 len0 bid b)).length ≤ SUPER_BLOCK_SIZE := by
    rw [hW]
    simp [encodeLE_length, writeBlockMetaBytes_length, BLOCK_META_SIZE, SUPER_BLOCK_SIZE]
  have hfits : ∀ m, (c1Mid mode codec f0 len0 bid b).index_meta = some m → MetaFits m := by
    intro m hm
    have hm2 : c1IdxMeta mode codec bid b = m := by
      have h3 : some (c1IdxMeta mode codec bid b) = some m := hm
      injection h3
    subst hm2
    have hsbs : SUPER_BLOCK_SIZE = 4096 := rfl
    have hps : PAGE_SIZE = 4096 := rfl
    have hru := (PAGE_ROUND_UP_bounds (compress_data mode codec b.data b.size).2).2
    refine ⟨?_, show (30 : Nat) < 2 ^ 32 by norm_num, ?_,
      show (0 : Nat) < 2 ^ 16 by norm_num⟩
    · show 2 * SUPER_BLOCK_SIZE +
        PAGE_ROUND_UP (compress_data mode codec b.data b.size).2 < 2 ^ 64
      omega
    · show (compress_data mode codec (c1IdxPayload mode codec bid b) 30).2 < 2 ^ 32
      exact hcsI32
  show parseSuper (padTo SUPER_BLOCK_SIZE (writeSuperBytes (c1Mid mode codec f0 len0 bid b))) = _
  rw [padTo_of_length_le _ _ hlen]
  exact parseSuper_roundtrip (c1Mid mode codec f0 len0 bid b) _
    (show (0 : Nat) < 2 ^ 64 by norm_num) (show (0 : Nat) < 2 ^ 8 by norm_num)
    (show (0 : Nat) < 2 ^ 8 by norm_num) (show (0 : Nat) < 2 ^ 16 by norm_num) hfits

theorem load_superblock_parse_ok (st : LayoutState) (p : SBParsed)
    (h : parseSuper (readBytes st.file 0 SUPER_BLOCK_SIZE) = some p) :
    load_superblock st true true = some p := by
  unfold load_superblock
  rw [h]
  rfl

theorem c1_load_sb (mode : Compress) (codec : Codec) (f0 : Nat → Nat) (len0 : Nat)
    (bid : Nat) (b : Block)
    (hcs32 : (compress_data mode codec b.data b.size).2 < 2 ^ 32)
    (hcsI32 : (compress_data mode codec (c1IdxPayload mode codec bid b) 30).2 < 2 ^ 32) :
    load_superblock (freshLayout mode (c1Flushed mode codec f0 len0 bid b).file
        (c1Flushed mode codec f0 len0 bid b).length_) true true =
      some ⟨0, 0, 0, compressTag mode, some (c1IdxMeta mode codec bid b), 0⟩ := by
  apply load_superblock_parse_ok
  rw [show (freshLayout mode (c1Flushed mode codec f0 len0 bid b).file
      (c1Flushed mode codec f0 len0 bid b).length_).file =
    (c1Flushed mode codec f0 len0 bid b).file from rfl]
  rw [c1_read_sb, c1_parse_sb mode codec f0 len0 bid b hcs32 hcsI32]

theorem c1_load_idx (mode : Compress) (codec : Codec) (f0 : Nat → Nat) (len0 : Nat)
    (bid : Nat) (b : Block) (st : LayoutState)
    (hfile : st.file = (c1Flushed mode codec f0 len0 bid b).file)
    (hbid : bid < 2 ^ 64) (hsz32 : b.size < 2 ^ 32)
    (hcs32 : (compress_data mode codec b.data b.size).2 < 2 ^ 32)
    (inflI : List Nat)
    (huncI : uncompress_data mode codec
      (padTo (PAGE_ROUND_UP (compress_data mode codec (c1IdxPayload mode codec bid b) 30).2)
        (compress_data mode codec (c1IdxPayload mode codec bid b) 30).1)
      (compress_data mode codec (c1IdxPayload mode codec bid b) 30).2 30 = some inflI)
    (htakeI : inflI.take 30 = c1IdxPayload mode codec bid b) :
    load_index mode codec st (c1IdxMeta mode codec bid b) true =
      some [(bid, c1Meta mode codec b)] := by
  have hb : ∀ p ∈ [(bid, c1Meta mode codec b)], p.1 < 2 ^ 64 ∧ MetaFits p.2 := by
    intro p hp
    have hp2 : p = (bid, c1Meta mode codec b) := by simpa using hp
    subst hp2
    have hsbs : SUPER_BLOCK_SIZE = 4096 := rfl
    refine ⟨hbid, ?_, ?_, ?_, show (0 : Nat) < 2 ^ 16 by norm_num⟩
    · show 2 * SUPER_BLOCK_SIZE < 2 ^ 64
      omega
    · show b.size < 2 ^ 32
      exact hsz32
    · show (compress_data mode codec b.data b.size).2 < 2 ^ 32
      exact hcs32
  have hrb : read_block mode codec st (c1IdxMeta mode codec bid b) true =
      some ⟨inflI, 30⟩ := by
    unfold read_block
    rw [if_pos rfl, hfile]
    rw [show (c1IdxMeta mode codec bid b).offset =
        2 * SUPER_BLOCK_SIZE + PAGE_ROUND_UP (compress_data mode codec b.data b.size).2
        from rfl,
      show (c1IdxMeta mode codec bid b).compressed_size =
        (compress_data mode codec (c1IdxPayload mode codec bid b) 30).2 from rfl,
      show (c1IdxMeta mode codec bid b).inflated_size = 30 from rfl]
    rw [c1_read_idx, huncI]
  unfold load_index
  rw [hrb]
  show parseIndex (inflI.take 30) = _
  rw [htakeI]
  rw [show c1IdxPayload mode codec bid b =
    writeIndexBytes [(bid, c1Meta mode codec b)] from rfl]
  rw [← List.append_nil (writeIndexBytes [(bid, c1Meta mode codec b)])]
  exact parseIndex_roundtrip [(bid, c1Meta mode codec b)] [] (by norm_num) hb

set_option maxRecDepth 100000 in
theorem initLayout_open_ok (mode : Compress) (codec : Codec) (F : Nat → Nat) (L : Nat)
    (mg mj mn crc : Nat) (idxm : BlockMeta) (entries : List (Nat × BlockMeta))
    (hshort : ¬ (L < 2 * SUPER_BLOCK_SIZE))
    (hload : load_superblock (freshLayout mode F L) true true =
      some ⟨mg, mj, mn, compressTag mode, some idxm, crc⟩)
    (hidx : load_index mode codec
      { freshLayout mode F L with
          sb_magic := mg, sb_major := mj, sb_minor := mn,
          sb_crc := crc, index_meta := some idxm } idxm true = some entries) :
    initLayout mode codec F L false allOk =
      some (truncateOp (init_holes (init_block_offset_index
        { freshLayout mode F L with
            sb_magic := mg, sb_major := mj, sb_minor := mn,
            sb_crc := crc, index_meta := some idxm, block_index := entries }))) := by
  simp only [initLayout, allOk]
  rw [if_neg (show ¬ (false = true) by simp)]
  rw [if_neg hshort, hload]
  split
  · next heq => exact absurd heq (by simp)
  · next p heq =>
    have hp : p = ⟨mg, mj, mn, compressTag mode, some idxm, crc⟩ := by
      injection heq with h2
      exact h2.symm
    subst hp
    rw [if_neg (show ¬ (compressTag mode ≠
      (⟨mg, mj, mn, compressTag mode, some idxm, crc⟩ : SBParsed).ctag)
      from fun hcontra => hcontra rfl)]
    split
    · next im heq2 =>
      have him : idxm = im := by
        have h3 : some idxm = some im := heq2
        injection h3
      subst him
      rw [show (⟨mg, mj, mn, compressTag mode, some idxm, crc⟩ : SBParsed).magic = mg
          from rfl,
        show (⟨mg, mj, mn, compressTag mode, some idxm, crc⟩ : SBParsed).major = mj
          from rfl,
        show (⟨mg, mj, mn, compressTag mode, some idxm, crc⟩ : SBParsed).minor = mn
          from rfl,
        show (⟨mg, mj, mn, compressTag mode, some idxm, crc⟩ : SBParsed).crc = crc
          from rfl,
        show (⟨mg, mj, mn, compressTag mode, some idxm, crc⟩ : SBParsed).index_meta =
          some idxm from rfl]
      rw [hidx]
    · next heq2 => exact absurd heq2 (by simp)

/-- State produced by reopening the flushed file with
`init(create = false)`. -/
def c1Reopened (mode : Compress) (codec : Codec) (f0 : Nat → Nat) (len0 : Nat)
    (bid : Nat) (b : Block) : LayoutState :=
  truncateOp (init_holes (init_block_offset_index
    { freshLayout mode (c1Flushed mode codec f0 len0 bid b).file
        (c1Flushed mode codec f0 len0 bid b).length_ with
        sb_magic := 0, sb_major := 0, sb_minor := 0, sb_crc := 0,
        index_meta := some (c1IdxMeta mode codec bid b),
        block_index := [(bid, c1Meta mode codec b)] }))

theorem c1Reopened_block_index (mode : Compress) (codec : Codec) (f0 : Nat → Nat)
    (len0 : Nat) (bid : Nat) (b : Block) :
    (c1Reopened mode codec f0 len0 bid b).block_index = [(bid, c1Meta mode codec b)] := by
  unfold c1Reopened
  rw [truncateOp_block_index, init_holes_block_index, init_block_offset_index_block_index]

theorem c1Reopened_file (mode : Compress) (codec : Codec) (f0 : Nat → Nat)
    (len0 : Nat) (bid : Nat) (b : Block) :
    (c1Reopened mode codec f0 len0 bid b).file = (c1Flushed mode codec f0 len0 bid b).file := by
  unfold c1Reopened
  rw [truncateOp_file, init_holes_file, init_block_offset_index_file]
  rfl

theorem initLayout_reopen_c1 (mode : Compress) (codec : Codec) (f0 : Nat → Nat)
    (len0 : Nat) (bid : Nat) (b : Block)
    (hbid : bid < 2 ^ 64) (hsz32 : b.size < 2 ^ 32)
    (hcs32 : (compress_data mode codec b.data b.size).2 < 2 ^ 32)
    (hcsI32 : (compress_data mode codec (c1IdxPayload mode codec bid b) 30).2 < 2 ^ 32)
    (inflI : List Nat)
    (huncI : uncompress_data mode codec
      (padTo (PAGE_ROUND_UP (compress_data mode codec (c1IdxPayload mode codec bid b) 30).2)
        (compress_data mode codec (c1IdxPayload mode codec bid b) 30).1)
      (compress_data mode codec (c1IdxPayload mode codec bid b) 30).2 30 = some inflI)
    (htakeI : inflI.take 30 = c1IdxPayload mode codec bid b) :
    initLayout mode codec (c1Flushed mode codec f0 len0 bid b).file
      (c1Flushed mode codec f0 len0 bid b).length_ false allOk =
      some (c1Reopened mode codec f0 len0 bid b) := by
  have hflen : (c1Flushed mode codec f0 len0 bid b).length_ =
      2 * SUPER_BLOCK_SIZE + PAGE_ROUND_UP (compress_data mode codec b.data b.size).2 +
      PAGE_ROUND_UP (compress_data mode codec (c1IdxPayload mode codec bid b) 30).2 := rfl
  have hshort : ¬ ((c1Flushed mode codec f0 len0 bid b).length_ < 2 * SUPER_BLOCK_SIZE) := by
    rw [hflen]
    omega
  exact initLayout_open_ok mode codec (c1Flushed mode codec f0 len0 bid b).file
    (c1Flushed mode codec f0 len0 bid b).length_ 0 0 0 0
    (c1IdxMeta mode codec bid b) [(bid, c1Meta mode codec b)] hshort
    (c1_load_sb mode codec f0 len0 bid b hcs32 hcsI32)
    (c1_load_idx mode codec f0 len0 bid b _ rfl hbid hsz32 hcs32 inflI huncI htakeI)

theorem readOp_c1 (mode : Compress) (codec : Codec) (f0 : Nat → Nat) (len0 : Nat)
    (bid : Nat) (b : Block) (st4 : LayoutState)
    (hbidx : st4.block_index = [(bid, c1Meta mode codec b)])
    (hfile : st4.file = (c1Flushed mode codec f0 len0 bid b).file)
    (inflB : List Nat)
    (huncB : uncompress_data mode codec
      (padTo (PAGE_ROUND_UP (compress_data mode codec b.data b.size).2)
        (compress_data mode codec b.data b.size).1)
      (compress_data mode codec b.data b.size).2 b.size = some inflB) :
    readOp mode codec st4 bid true = some ⟨inflB, b.size⟩ := by
  unfold readOp
  rw [hbidx]
  rw [show lookupA [(bid, c1Meta mode codec b)] bid = some (c1Meta mode codec b) from by
    unfold lookupA
    rw [if_pos rfl]]
  show read_block mode codec st4 (c1Meta mode codec b) true = _
  unfold read_block
  rw [if_pos rfl, hfile]
  rw [show (c1Meta mode codec b).offset = 2 * SUPER_BLOCK_SIZE from rfl,
    show (c1Meta mode codec b).compressed_size =
      (compress_data mode codec b.data b.size).2 from rfl,
    show (c1Meta mode codec b).inflated_size = b.size from rfl]
  rw [c1_read_data, huncB]

/-- The whole C1 experiment: create a fresh layout over an arbitrary
initial file, write block `b` under `bid` (write completes successfully),
flush, reopen the resulting file with `init(create = false)`, read `bid`
back, and return the first `b.size` bytes of the block that `read`
produced.  All underlying I/O succeeds. -/
def c1Run (mode : Compress) (codec : Codec) (f0 : Nat → Nat) (len0 : Nat) (bid : Nat)
    (b : Block) : Option (List Nat) :=
  (initLayout mode codec f0 len0 true allOk).bind (fun st1 =>
    let st2 := (async_write mode codec st1 bid b true).1
    let r3 := flushOp mode codec st2 true true true
    if r3.2 then
      (initLayout mode codec r3.1.file r3.1.length_ false allOk).bind (fun st4 =>
        (readOp mode codec st4 bid true).map (fun bl => bl.data.take b.size))
    else none)

/-- C1: for every block `b` and block ID `bid` and for both compression
modes, `async_write(bid, b)` completing successfully, then `flush()`, then
reopening the layout with `init(create = false)`, then `read(bid)` returns
a block whose first `b.size` bytes equal `b`'s contents byte-for-byte.
Hypotheses: the block buffer satisfies the asserted capacity invariant and
its sizes fit the serialized widths, the compressed sizes are nonzero (the
aligned-allocator precondition) and fit an `u32`, and — for the Snappy mode
only — the external codec inverts its own compression on the two buffers it
is given (for `kNoCompress` the pass-through round-trip is proved, not
assumed). -/
theorem c1_write_flush_reopen_read (mode : Compress) (codec : Codec) (f0 : Nat → Nat)
    (len0 : Nat) (bid : Nat) (b : Block)
    (hcap : b.data.length = PAGE_ROUND_UP b.size)
    (_hsz0 : 0 < b.size) (hsz32 : b.size < 2 ^ 32) (hbid : bid < 2 ^ 64)
    (hcs0 : 0 < (compress_data mode codec b.data b.size).2)
    (hcs32 : (compress_data mode codec b.data b.size).2 < 2 ^ 32)
    (hcsI0 : 0 < (compress_data mode codec (c1IdxPayload mode codec bid b) 30).2)
    (hcsI32 : (compress_data mode codec (c1IdxPayload mode codec bid b) 30).2 < 2 ^ 32)
    (hsnapB : mode = .kSnappyCompress →
      codec.decomp (compress_data mode codec b.data b.size).1 b.size =
        some (b.data.take b.size))
    (hsnapI : mode = .kSnappyCompress →
      codec.decomp (compress_data mode codec (c1IdxPayload mode codec bid b) 30).1 30 =
        some (c1IdxPayload mode codec bid b)) :
    c1Run mode codec f0 len0 bid b = some (b.data.take b.size) := by
  have hplen : (c1IdxPayload mode codec bid b).length = 30 := by
    show (writeIndexBytes [(bid, c1Meta mode codec b)]).length = 30
    rw [writeIndexBytes_length]
    simp [BLOCK_META_SIZE]
  obtain ⟨inflI, huncI, htakeI⟩ : ∃ i, uncompress_data mode codec
      (padTo (PAGE_ROUND_UP (compress_data mode codec (c1IdxPayload mode codec bid b) 30).2)
        (compress_data mode codec (c1IdxPayload mode codec bid b) 30).1)
      (compress_data mode codec (c1IdxPayload mode codec bid b) 30).2 30 = some i ∧
      i.take 30 = c1IdxPayload mode codec bid b := by
    cases mode with
    | kNoCompress =>
      refine ⟨_, rfl, ?_⟩
      have h30 : (compress_data .kNoCompress codec
          (c1IdxPayload .kNoCompress codec bid b) 30).2 = 30 := rfl
      have hle : (c1IdxPayload .kNoCompress codec bid b).length ≤
          PAGE_ROUND_UP (compress_data .kNoCompress codec
            (c1IdxPayload .kNoCompress codec bid b) 30).2 := by
        rw [hplen, h30]
        exact (PAGE_ROUND_UP_bounds 30).1
      have := padTo_take_own_length
        (PAGE_ROUND_UP (compress_data .kNoCompress codec
          (c1IdxPayload .kNoCompress codec bid b) 30).2)
        (c1IdxPayload .kNoCompress codec bid b) hle
      rw [hplen] at this
      exact this
    | kSnappyCompress =>
      refine ⟨c1IdxPayload .kSnappyCompress codec bid b, ?_, ?_⟩
      · show codec.decomp ((padTo
          (PAGE_ROUND_UP (compress_data .kSnappyCompress codec
            (c1IdxPayload .kSnappyCompress codec bid b) 30).2)
          (compress_data .kSnappyCompress codec
            (c1IdxPayload .kSnappyCompress codec bid b) 30).1).take
          (compress_data .kSnappyCompress codec
            (c1IdxPayload .kSnappyCompress codec bid b) 30).2) 30 = _
        rw [show (compress_data .kSnappyCompress codec
            (c1IdxPayload .kSnappyCompress codec bid b) 30).2 =
          (compress_data .kSnappyCompress codec
            (c1IdxPayload .kSnappyCompress codec bid b) 30).1.length from rfl]
        rw [padTo_take_own_length _ _ (by
          rw [show PAGE_ROUND_UP (compress_data .kSnappyCompress codec
              (c1IdxPayload .kSnappyCompress codec bid b) 30).1.length =
            PAGE_ROUND_UP (compress_data .kSnappyCompress codec
              (c1IdxPayload .kSnappyCompress codec bid b) 30).2 from rfl]
          exact (PAGE_ROUND_UP_bounds _).1)]
        exact hsnapI rfl
      · rw [List.take_of_length_le (le_of_eq hplen)]
  obtain ⟨inflB, huncB, htakeB⟩ : ∃ i, uncompress_data mode codec
      (padTo (PAGE_ROUND_UP (compress_data mode codec b.data b.size).2)
        (compress_data mode codec b.data b.size).1)
      (compress_data mode codec b.data b.size).2 b.size = some i ∧
      i.take b.size = b.data.take b.size := by
    cases mode with
    | kNoCompress =>
      refine ⟨_, rfl, ?_⟩
      have hn : b.data.length =
          PAGE_ROUND_UP (compress_data .kNoCompress codec b.data b.size).2 := hcap
      have hpeq : padTo (PAGE_ROUND_UP (compress_data .kNoCompress codec b.data b.size).2)
          b.data = b.data := by
        rw [padTo_of_length_le _ _ (le_of_eq hn), ← hn, Nat.sub_self]
        simp
      rw [show (compress_data .kNoCompress codec b.data b.size).1 = b.data from rfl, hpeq]
    | kSnappyCompress =>
      refine ⟨b.data.take b.size, ?_, by simp [List.take_take]⟩
      show codec.decomp ((padTo
        (PAGE_ROUND_UP (compress_data .kSnappyCompress codec b.data b.size).2)
        (compress_data .kSnappyCompress codec b.data b.size).1).take
        (compress_data .kSnappyCompress codec b.data b.size).2) b.size = _
      rw [show (compress_data .kSnappyCompress codec b.data b.size).2 =
        (compress_data .kSnappyCompress codec b.data b.size).1.length from rfl]
      rw [padTo_take_own_length _ _ (by
        rw [show PAGE_ROUND_UP (compress_data .kSnappyCompress codec b.data b.size).1.length =
          PAGE_ROUND_UP (compress_data .kSnappyCompress codec b.data b.size).2 from rfl]
        exact (PAGE_ROUND_UP_bounds _).1)]
      exact hsnapB rfl
  unfold c1Run
  rw [initLayout_create_eq mode codec f0 len0]
  simp only [Option.some_bind]
  rw [async_write_c1 mode codec f0 len0 bid b hcs0]
  simp only []
  rw [flushOp_c1 mode codec f0 len0 bid b hcs0 hcsI0]
  simp only []
  rw [if_pos trivial]
  rw [initLayout_reopen_c1 mode codec f0 len0 bid b hbid hsz32 hcs32 hcsI32 inflI
    huncI htakeI]
  simp only [Option.some_bind]
  rw [readOp_c1 mode codec f0 len0 bid b (c1Reopened mode codec f0 len0 bid b)
    (c1Reopened_block_index mode codec f0 len0 bid b)
    (c1Reopened_file mode codec f0 len0 bid b) inflB huncB]
  simp only [Option.map_some']
  rw [htakeB]

set_option maxRecDepth 10000 in
/-- Concrete instantiation of the C1 theorem: Snappy mode with a codec
whose decompression inverts its compression on the two buffers involved
(here the identity codec), a 5-byte block of bytes 9 under bid 5. -/
theorem c1_write_flush_reopen_read_witness :
    c1Run .kSnappyCompress idCodec zeroFile 0 5 (mkBlock 9 5 4096) =
      some ((mkBlock 9 5 4096).data.take 5) :=
  c1_write_flush_reopen_read .kSnappyCompress idCodec zeroFile 0 5 (mkBlock 9 5 4096)
    (by
      show (List.replicate 4096 9).length = PAGE_ROUND_UP 5
      rw [List.length_replicate]
      decide)
    (by decide) (by decide) (by decide) (by decide)
    (by decide) (by decide) (by decide) (fun _ => by decide) (fun _ => by decide)
